/-
Verification of the tesseract OLAP query-resolution core.

This file gives a shallow embedding, in Lean 4, of the query compilation
and resolution chain of the tesseract server:

  - the metadata cache (src/tesseract-server/src/logic_layer/cache.rs):
    time value lists, parent/children/neighbors maps, get_time_cut,
    get_neighbors_map;
  - the logic-layer resolver
    (src/tesseract-server/src/handlers/logic_layer/aggregate.rs):
    clean_cuts_map, resolve_cuts with the cut operators, the cartesian
    expansion of per-dimension cuts and the emission of internal queries;
  - the schema binder (src/tesseract-core/src/lib.rs): sql_query and the
    column/header derivation;
  - the fact-table pass of the clickhouse SQL generator
    (src/tesseract-clickhouse/src/sql/primary_agg.rs).

Rust HashMap values are modelled as association lists in insertion order;
only lookup, insert (overwrite), entry-or-insert, remove and length are
used, so iteration order of the model is the insertion order.  A Rust
panic (out-of-bounds slice or index) is modelled by returning none.
Functions of the repository that live in modules not present under src
(the schema navigation helpers, the core names module, parts of the
clickhouse sql module, the logic-layer named-set config) are modelled
from the spec and marked as such in their doc comments.
-/
import Mathlib

set_option autoImplicit false
set_option synthInstance.maxSize 2000
set_option maxHeartbeats 1000000

/-- Decidable equality for Except results, used to evaluate the embedded
fallible operations on concrete inputs. -/
instance instDecEqExcept {ε α : Type} [DecidableEq ε] [DecidableEq α] :
    DecidableEq (Except ε α) := fun a b =>
  match a, b with
  | Except.ok x, Except.ok y =>
    if h : x = y then isTrue (by rw [h]) else isFalse (by intro hc; cases hc; exact h rfl)
  | Except.error x, Except.error y =>
    if h : x = y then isTrue (by rw [h]) else isFalse (by intro hc; cases hc; exact h rfl)
  | Except.ok _, Except.error _ => isFalse (by intro hc; cases hc)
  | Except.error _, Except.ok _ => isFalse (by intro hc; cases hc)

namespace Tesseract

/-! ## Association-list model of Rust HashMap -/

/-- Lookup in an association list; models HashMap get. -/
def alGet? {K V : Type} [DecidableEq K] (m : List (K × V)) (k : K) : Option V :=
  (m.find? (fun e => e.1 = k)).map (fun e => e.2)

/-- Insert with overwrite; models HashMap insert. -/
def alInsert {K V : Type} [DecidableEq K] (m : List (K × V)) (k : K) (v : V) :
    List (K × V) :=
  match m with
  | [] => [(k, v)]
  | e :: rest => if e.1 = k then (k, v) :: rest else e :: alInsert rest k v

/-- Insert only when the key is absent; models HashMap entry or_insert. -/
def alEntryOrInsert {K V : Type} [DecidableEq K] (m : List (K × V)) (k : K) (v : V) :
    List (K × V) :=
  match alGet? m k with
  | some _ => m
  | none => m ++ [(k, v)]

/-- Remove an entry by key; models HashMap remove_entry. -/
def alRemove {K V : Type} [DecidableEq K] (m : List (K × V)) (k : K) : List (K × V) :=
  match m with
  | [] => []
  | e :: rest => if e.1 = k then rest else e :: alRemove rest k

/-- Modify the value stored at a key that is known to be present;
models the get_mut / assign pattern.  Absent keys are left alone. -/
def alModify {K V : Type} [DecidableEq K] (m : List (K × V)) (k : K) (f : V → V) :
    List (K × V) :=
  match m with
  | [] => []
  | e :: rest => if e.1 = k then (e.1, f e.2) :: rest else e :: alModify rest k f

/-- Helper for splitChar: split the remaining characters at the
separator, with the reversed current chunk as accumulator. -/
def splitCharAux (sep : Char) : List Char → List Char → List String
  | [], acc => [String.mk acc.reverse]
  | c :: rest, acc =>
    if c = sep then String.mk acc.reverse :: splitCharAux sep rest []
    else splitCharAux sep rest (c :: acc)

/-- Rust str::split on a one-character pattern (the resolver only splits
on the separators colon, comma and dot): the empty string yields one
empty chunk, and separators at the ends yield empty chunks. -/
def splitChar (sep : Char) (s : String) : List String :=
  splitCharAux sep s.toList []

/-- Structural monadic map for Except, modelling a Rust loop that
collects results and propagates the first error. -/
def mapME {α β : Type} (f : α → Except String β) : List α → Except String (List β)
  | [] => Except.ok []
  | a :: rest => do
    let b ← f a
    let bs ← mapME f rest
    Except.ok (b :: bs)

/-- Structural monadic map for Option. -/
def mapMO {α β : Type} (f : α → Option β) : List α → Option (List β)
  | [] => some []
  | a :: rest => do
    let b ← f a
    let bs ← mapMO f rest
    some (b :: bs)

/-! ## Data model: names (tesseract-core names module, modelled from usage and spec) -/

/-- Canonical level identity: dimension, hierarchy, level.
Modelled from the spec: the names module of tesseract-core is not under
src; field names follow their uses in aggregate.rs and lib.rs. -/
structure LevelName where
  dimension : String
  hierarchy : String
  level : String
deriving DecidableEq, Repr

/-- Cut mask. Modelled from the spec: only the Include variant is used by
the embedded code (Mask.Include in generate_ts_queries). -/
inductive Mask where
  | Include
  | Exclude
deriving DecidableEq, Repr

/-- A bound cut: level plus member list.  Field set as constructed in
generate_ts_queries: level_name, members, mask, for_match. -/
structure Cut where
  level_name : LevelName
  members : List String
  mask : Mask
  for_match : Bool
deriving DecidableEq, Repr

/-- A drilldown names a level. -/
structure Drilldown where
  level_name : LevelName
deriving DecidableEq, Repr

/-- A measure reference by name. -/
structure Measure where
  name : String
deriving DecidableEq, Repr

/-- A property reference: owning level plus property name, as used in
lib.rs (fields level_name and property) and built by Property::new. -/
structure Property where
  level_name : LevelName
  property : String
deriving DecidableEq, Repr

/-! ## Data model: schema (tesseract-core schema module, modelled from usage and spec) -/

/-- Member type tag of a dimension foreign key; controls SQL literal
quoting.  Modelled from the spec. -/
inductive MemberType where
  | Text
  | NonText
deriving DecidableEq, Repr

/-- Dimension type tag (spec section 3: generic / geo / time). -/
inductive DimensionType where
  | Generic
  | Geo
  | Time
deriving DecidableEq, Repr

/-- Physical table binding: name and optional primary key, as used by
cube_table in lib.rs. -/
structure Table where
  name : String
  primary_key : Option String
deriving DecidableEq, Repr

/-- A property declared on a level in the schema: name, column, optional
caption-set tag (spec section 3). -/
structure LevelProperty where
  name : String
  column : String
  caption_set : Option String
deriving DecidableEq, Repr

/-- A level: name, key column, optional display-name column, optional
property list (spec section 3). -/
structure Level where
  name : String
  key_column : String
  name_column : Option String
  properties : Option (List LevelProperty)
deriving DecidableEq, Repr

/-- A hierarchy: name, optional dimension table, required primary key,
ordered levels shallow to deep (spec section 3). -/
structure Hierarchy where
  name : String
  table : Option Table
  primary_key : String
  levels : List Level
deriving DecidableEq, Repr

/-- A dimension: name, optional fact foreign key and its type tag,
dimension type, hierarchies (spec section 3).  Fields not used by any
embedded operation are omitted. -/
structure Dimension where
  name : String
  foreign_key : Option String
  foreign_key_type : Option MemberType
  dim_type : DimensionType
  hierarchies : List Hierarchy
deriving DecidableEq, Repr

/-- A measure declared in the schema: name, column, aggregator tag.  The
aggregator is kept as an opaque tag string; no embedded operation
inspects it. -/
structure CubeMeasure where
  name : String
  column : String
  aggregator : String
deriving DecidableEq, Repr

/-- A cube: name, fact table, dimensions, measures (spec section 3). -/
structure Cube where
  name : String
  table : Table
  dimensions : List Dimension
  measures : List CubeMeasure
deriving DecidableEq, Repr

/-- The schema is the list of cubes. -/
structure Schema where
  cubes : List Cube
deriving DecidableEq, Repr

/-! ## Schema navigation (schema.rs is not under src; modelled from the spec) -/

/-- Modelled from the spec: level_by_name.  Finds the level for a
LevelName by scanning dimension, hierarchy and level names. -/
def Cube.get_level (cube : Cube) (ln : LevelName) : Option Level := do
  let dim ← cube.dimensions.find? (fun d => d.name = ln.dimension)
  let hier ← dim.hierarchies.find? (fun h => h.name = ln.hierarchy)
  hier.levels.find? (fun l => l.name = ln.level)

/-- Modelled from the spec: parents_of_level returns the ordered sequence
of levels strictly above the target in its hierarchy, deepest-parent
last; unknown names are an error. -/
def Cube.get_level_parents (cube : Cube) (ln : LevelName) : Except String (List Level) :=
  match cube.dimensions.find? (fun d => d.name = ln.dimension) with
  | none => Except.error "dimension not found"
  | some dim =>
    match dim.hierarchies.find? (fun h => h.name = ln.hierarchy) with
    | none => Except.error "hierarchy not found"
    | some hier =>
      match hier.levels.findIdx? (fun l => l.name = ln.level) with
      | none => Except.error "level not found"
      | some idx => Except.ok (hier.levels.take idx)

/-- Modelled from the spec: child_level returns the single next-deeper
level if any; unknown names are an error. -/
def Cube.get_child_level (cube : Cube) (ln : LevelName) : Except String (Option Level) :=
  match cube.dimensions.find? (fun d => d.name = ln.dimension) with
  | none => Except.error "dimension not found"
  | some dim =>
    match dim.hierarchies.find? (fun h => h.name = ln.hierarchy) with
    | none => Except.error "hierarchy not found"
    | some hier =>
      match hier.levels.findIdx? (fun l => l.name = ln.level) with
      | none => Except.error "level not found"
      | some idx => Except.ok (hier.levels.get? (idx + 1))

/-- Modelled from the spec: dimension_of_level. -/
def Cube.get_dimension (cube : Cube) (ln : LevelName) : Option Dimension :=
  cube.dimensions.find? (fun d => d.name = ln.dimension)

/-- Modelled from the spec: captions of a level for the requested
locales, mirroring the caption collection in get_parent_captions
(aggregate.rs): one Property per declared property whose caption_set
tag is among the locales. -/
def Level.get_captions (level : Level) (ln : LevelName) (locales : List String) :
    List Property :=
  match level.properties with
  | none => []
  | some props =>
    props.foldl
      (fun acc prop =>
        match prop.caption_set with
        | none => acc
        | some cap =>
          if locales.contains cap then
            acc ++ [{ level_name := { dimension := ln.dimension
                                      hierarchy := ln.hierarchy
                                      level := level.name }
                      property := prop.name }]
          else acc)
      []

/-! ## Metadata cache (src/tesseract-server/src/logic_layer/cache.rs) -/

/-- Decimal digit value of a character. -/
def digit? (c : Char) : Option Nat :=
  if c = '0' then some 0 else if c = '1' then some 1 else if c = '2' then some 2
  else if c = '3' then some 3 else if c = '4' then some 4 else if c = '5' then some 5
  else if c = '6' then some 6 else if c = '7' then some 7 else if c = '8' then some 8
  else if c = '9' then some 9 else none

/-- Parse a run of decimal digits, most significant first. -/
def parseDigits : List Char → Nat → Option Nat
  | [], acc => some acc
  | c :: rest, acc =>
    match digit? c with
    | some d => parseDigits rest (acc * 10 + d)
    | none => none

/-- Rust u32 parsing used by TimeValue::from_str: a non-empty run of
decimal digits, range-checked against 2^32. -/
def parseU32 (raw : String) : Option Nat :=
  match raw.toList with
  | [] => none
  | cs =>
    match parseDigits cs 0 with
    | some n => if n < 4294967296 then some n else none
    | none => none

/-- TimeValue from cache.rs: latest, oldest, or a u32 literal. -/
inductive TimeValue where
  | First
  | Last
  | Value (n : Nat)
deriving DecidableEq, Repr

/-- TimeValue::from_str from cache.rs. -/
def TimeValue.from_str (raw : String) : Except String TimeValue :=
  if raw = "latest" then Except.ok TimeValue.Last
  else if raw = "oldest" then Except.ok TimeValue.First
  else
    match parseU32 raw with
    | some n => Except.ok (TimeValue.Value n)
    | none => Except.error "Wrong type for time argument."

/-- TimePrecision from cache.rs. -/
inductive TimePrecision where
  | Year
  | Quarter
  | Month
  | Week
  | Day
deriving DecidableEq, Repr

/-- TimePrecision::from_str from cache.rs. -/
def TimePrecision.from_str (raw : String) : Except String TimePrecision :=
  if raw = "year" then Except.ok TimePrecision.Year
  else if raw = "quarter" then Except.ok TimePrecision.Quarter
  else if raw = "month" then Except.ok TimePrecision.Month
  else if raw = "week" then Except.ok TimePrecision.Week
  else if raw = "day" then Except.ok TimePrecision.Day
  else Except.error "Wrong type for time precision argument."

/-- A parsed time token. -/
structure Time where
  precision : TimePrecision
  value : TimeValue
deriving DecidableEq, Repr

/-- Time::from_key_value from cache.rs. -/
def Time.from_key_value (key value : String) : Except String Time := do
  let precision ← TimePrecision.from_str key
  let v ← TimeValue.from_str value
  Except.ok { precision := precision, value := v }

/-- Per-level cache entry: parent, children and neighbors maps. -/
structure LevelCache where
  parent_map : Option (List (String × String))
  children_map : Option (List (String × List String))
  neighbors_map : List (String × List String)
deriving DecidableEq, Repr

/-- Per-dimension cache entry: member id to list of levels emitting it. -/
structure DimensionCache where
  id_map : List (String × List LevelName)
deriving DecidableEq, Repr

/-- Per-cube cache, with the same fields as CubeCache in cache.rs. -/
structure CubeCache where
  name : String
  year_level : Option Level
  year_values : Option (List String)
  quarter_level : Option Level
  quarter_values : Option (List String)
  month_level : Option Level
  month_values : Option (List String)
  week_level : Option Level
  week_values : Option (List String)
  day_level : Option Level
  day_values : Option (List String)
  level_map : List (String × LevelName)
  property_map : List (String × Property)
  level_caches : List (String × LevelCache)
  dimension_caches : List (String × DimensionCache)
deriving DecidableEq, Repr

/-- CubeCache::get_level_name from cache.rs. -/
def CubeCache.get_level_name (_c : CubeCache) (level : Option Level) : Option String :=
  match level with
  | some l => some l.name
  | none => none

/-- CubeCache::get_value from cache.rs: first or last element of the
sorted value list, or the integer rendered back to a string. -/
def CubeCache.get_value (_c : CubeCache) (time : Time) (opt : Option (List String)) :
    Option String :=
  match opt with
  | some v =>
    match time.value with
    | TimeValue.First => if 1 ≤ v.length then some v.head! else none
    | TimeValue.Last => if 1 ≤ v.length then some (v.getLast! ) else none
    | TimeValue.Value t => some (toString t)
  | none => none

/-- CubeCache::get_time_cut from cache.rs: resolve a time token into a
cut key (level name) and cut value. -/
def CubeCache.get_time_cut (c : CubeCache) (time : Time) : Except String (String × String) :=
  let vl : Option String × Option String :=
    match time.precision with
    | TimePrecision.Year => (c.get_value time c.year_values, c.get_level_name c.year_level)
    | TimePrecision.Quarter =>
        (c.get_value time c.quarter_values, c.get_level_name c.quarter_level)
    | TimePrecision.Month => (c.get_value time c.month_values, c.get_level_name c.month_level)
    | TimePrecision.Week => (c.get_value time c.week_values, c.get_level_name c.week_level)
    | TimePrecision.Day => (c.get_value time c.day_values, c.get_level_name c.day_level)
  match vl.1 with
  | none => Except.error "Unable to get requested time precision data."
  | some val =>
    match vl.2 with
    | none => Except.error "Unable to get requested time precision level name."
    | some ln => Except.ok (ln, val)

/-! ## get_neighbors_map (cache.rs)

The Rust loop indexes distinct_ids[curr] and takes the slices
distinct_ids[prev..curr] and distinct_ids[curr+1..] or
distinct_ids[curr+1..next+1]; an out-of-range slice or index panics.
Panics are modelled by returning none. -/

/-- Rust slice l[a..b]: panics (none) unless a le b le len. -/
def slice? {α : Type} (l : List α) (a b : Nat) : Option (List α) :=
  if a ≤ b ∧ b ≤ l.length then some ((l.drop a).take (b - a)) else none

/-- Rust slice l[a..]: panics (none) unless a le len. -/
def sliceFrom? {α : Type} (l : List α) (a : Nat) : Option (List α) :=
  if a ≤ l.length then some (l.drop a) else none

/-- One pass of the while loop in get_neighbors_map, entered with the
loop state (prev, curr, next); loops until curr reaches the length. -/
def neighborsGo (ids : List String) (acc : List (String × List String))
    (prev curr next : Nat) : Option (List (String × List String)) :=
  match h : ids.get? curr with
  | none => none
  | some key =>
    match (if prev = 0 ∧ curr ≤ 1 then slice? ids 0 curr else slice? ids prev curr) with
    | none => none
    | some before =>
      match (if ids.length ≤ next then sliceFrom? ids (curr + 1)
             else slice? ids (curr + 1) (next + 1)) with
      | none => none
      | some after =>
        let acc2 := alInsert acc key (before ++ after)
        let prev2 := if 2 ≤ curr then prev + 1 else prev
        if curr + 1 = ids.length then some acc2
        else neighborsGo ids acc2 prev2 (curr + 1) (next + 1)
termination_by ids.length - curr
decreasing_by
  have hlt : curr < ids.length := List.get?_eq_some.mp h |>.choose
  omega

/-- get_neighbors_map from cache.rs: for each id, a window of up to two
predecessors and two successors.  The Rust loop body runs before any
emptiness check, so the empty list panics (none). -/
def get_neighbors_map (distinct_ids : List String) :
    Option (List (String × List String)) :=
  neighborsGo distinct_ids [] 0 0 2

/-! ## Logic-layer resolver (src/tesseract-server/src/handlers/logic_layer/aggregate.rs) -/

/-- Nested cuts map: dimension name to (level name to member ids). -/
abbrev DimCutsMap := List (String × List (LevelName × List String))

/-- Header rename map: level short name to dimension name. -/
abbrev HeaderMap := List (String × String)

/-- add_cut_entries from aggregate.rs: ensure the dimension and level
entries exist, then append the elements to the level cut list. -/
def add_cut_entries (dcm : DimCutsMap) (ln : LevelName) (elements : List String) :
    DimCutsMap :=
  let dcm1 := alEntryOrInsert dcm ln.dimension []
  alModify dcm1 ln.dimension (fun inner =>
    let inner1 := alEntryOrInsert inner ln []
    alModify inner1 ln (fun level_cuts => level_cuts ++ elements))

/-- Modelled from the spec: the logic-layer named-set config (the config
version with substitute_cut is not under src).  substitute_cut expands a
symbolic cut value for a cut key into a comma-separated member list and
is the identity on miss. -/
structure LogicLayerConfig where
  substitute_cut : String → String → String

/-- Mutable state threaded through resolve_cuts. -/
structure ResolveState where
  dcm : DimCutsMap
  header_map : HeaderMap
  level_matches : List LevelName
deriving DecidableEq, Repr

/-- The inner loop of the parents branch of resolve_cuts (aggregate.rs
lines 933-963): iterate over the reversed parent levels (deepest
first); at each ancestor insert the header entry, look up the level
cache of the current level name, fetch the parent id of the original
cut element, and on success emit one cut entry at the ancestor level
and advance the current level name; on a missing link continue with the
next ancestor. -/
def parents_walk (cube_cache : CubeCache) (cut : String) :
    List Level → LevelName → DimCutsMap → HeaderMap →
    Except String (DimCutsMap × HeaderMap)
  | [], _ln, dcm, hm => Except.ok (dcm, hm)
  | pl :: rest, ln, dcm, hm =>
    let pln : LevelName :=
      { dimension := ln.dimension, hierarchy := ln.hierarchy, level := pl.name }
    let hm2 := alEntryOrInsert hm pln.level pln.dimension
    match alGet? cube_cache.level_caches ln.level with
    | none => Except.error ("Could not find cached entries for " ++ ln.level ++ ".")
    | some level_cache =>
      match level_cache.parent_map with
      | none => parents_walk cube_cache cut rest ln dcm hm2
      | some pm =>
        match alGet? pm cut with
        | none => parents_walk cube_cache cut rest ln dcm hm2
        | some parent_id =>
          parents_walk cube_cache cut rest pln (add_cut_entries dcm pln [parent_id]) hm2

/-- The body of the innermost loop of resolve_cuts (aggregate.rs lines
841-1012): process a single cut value for a cut key.  The geoservice
call (an external collaborator) is passed as the function geoFn.  A
continue in the source is a normal return of the unchanged (or
partially updated) state. -/
def resolve_one_cut (cube : Cube) (cube_cache : CubeCache)
    (level_map : List (String × LevelName)) (geoservice_url : Option String)
    (geoFn : String → Except String (List String)) (st : ResolveState)
    (cut_key : String) (cut_value : String) : Except String ResolveState :=
  let elements := splitChar ':' cut_value
  match elements.head? with
  | none => Except.error "Malformatted cut."
  | some cut =>
    -- resolve the cut key to a LevelName, first as a dimension name via
    -- the reverse id index, else as a level short name
    let resolved : Except String (Option (LevelName × Bool)) :=
      match alGet? cube_cache.dimension_caches cut_key with
      | some dimension_cache =>
        match alGet? dimension_cache.id_map cut with
        | some level_names =>
          if 1 < level_names.length then
            Except.error (cut ++ " matches multiple levels in this dimension.")
          else
            match level_names.head? with
            | some ln => Except.ok (some (ln, false))
            | none => Except.error (cut ++ " matches no levels in this dimension.")
        | none => Except.ok none
      | none =>
        match alGet? level_map cut_key with
        | some ln => Except.ok (some (ln, true))
        | none => Except.ok none
    match resolved with
    | Except.error e => Except.error e
    | Except.ok none => Except.ok st
    | Except.ok (some (ln, level_matched)) =>
      let st :=
        { st with
          level_matches :=
            if level_matched then st.level_matches ++ [ln] else st.level_matches
          header_map := alEntryOrInsert st.header_map ln.level ln.dimension }
      if elements.length = 1 then
        Except.ok { st with dcm := add_cut_entries st.dcm ln [cut] }
      else if elements.length = 2 then
        match elements.get? 1 with
        | none => Except.error "Unable to extract cut operation."
        | some operation =>
          if operation = "children" then
            match cube.get_child_level ln with
            | Except.error e => Except.error e
            | Except.ok none => Except.ok st
            | Except.ok (some child_level) =>
              let child_ln : LevelName :=
                { dimension := ln.dimension, hierarchy := ln.hierarchy
                  level := child_level.name }
              let st :=
                { st with
                  header_map :=
                    alEntryOrInsert st.header_map child_ln.level child_ln.dimension }
              match alGet? cube_cache.level_caches ln.level with
              | none =>
                Except.error ("Could not find cached entries for " ++ ln.level ++ ".")
              | some level_cache =>
                match level_cache.children_map with
                | none => Except.ok st
                | some children_map =>
                  match alGet? children_map cut with
                  | none => Except.ok st
                  | some children_ids =>
                    Except.ok { st with dcm := add_cut_entries st.dcm child_ln children_ids }
          else if operation = "parents" then
            match cube.get_level_parents ln with
            | Except.error e => Except.error e
            | Except.ok parent_levels =>
              if parent_levels.isEmpty then Except.ok st
              else
                match parents_walk cube_cache cut parent_levels.reverse ln
                    st.dcm st.header_map with
                | Except.error e => Except.error e
                | Except.ok (dcm2, hm2) =>
                  Except.ok { st with dcm := dcm2, header_map := hm2 }
          else if operation = "neighbors" then
            match cube.get_dimension ln with
            | none => Except.error ("Could not find dimension for " ++ ln.level ++ ".")
            | some dimension =>
              match dimension.dim_type with
              | DimensionType.Geo =>
                match geoservice_url with
                | some _url =>
                  match geoFn cut with
                  | Except.error e => Except.error e
                  | Except.ok neighbors_ids =>
                    Except.ok { st with dcm := add_cut_entries st.dcm ln neighbors_ids }
                | none =>
                  Except.error
                    "Unable to perform geoservice request: A Geoservice URL has not been provided."
              | _ =>
                match alGet? cube_cache.level_caches ln.level with
                | none =>
                  Except.error ("Could not find cached entries for " ++ ln.level ++ ".")
                | some level_cache =>
                  match alGet? level_cache.neighbors_map cut with
                  | none => Except.ok st
                  | some neighbors_ids =>
                    Except.ok { st with dcm := add_cut_entries st.dcm ln neighbors_ids }
          else Except.error ("Unrecognized operation: " ++ operation ++ ".")
      else Except.error "Multiple cut operations are not supported on the same element."

/-- resolve_cuts from aggregate.rs: fold resolve_one_cut over every
comma-separated value of every non-empty cuts_map entry, then remove
from the header map the entries of level-matched single-cut dimensions. -/
def resolve_cuts (cube : Cube) (cube_cache : CubeCache)
    (level_map : List (String × LevelName)) (_property_map : List (String × Property))
    (geoservice_url : Option String) (geoFn : String → Except String (List String))
    (cuts_map : List (String × String)) : Except String (DimCutsMap × HeaderMap) := do
  let st0 : ResolveState := { dcm := [], header_map := [], level_matches := [] }
  let st ← cuts_map.foldlM
    (fun st entry =>
      if entry.2 = "" then pure st
      else
        (splitChar ',' entry.2).foldlM
          (fun st v =>
            resolve_one_cut cube cube_cache level_map geoservice_url geoFn st entry.1 v)
          st)
    st0
  let header := st.dcm.foldl
    (fun hm dim_entry =>
      if dim_entry.2.length = 1 then
        dim_entry.2.foldl
          (fun hm lvl_entry =>
            if st.level_matches.contains lvl_entry.1 then alRemove hm lvl_entry.1.level
            else hm)
          hm
      else hm)
    st.header_map
  pure (st.dcm, header)

/-- partial_cartesian from aggregate.rs. -/
def partial_cartesian {α : Type} (a : List (List α)) (b : List α) : List (List α) :=
  a.flatMap (fun xs => b.map (fun y => xs ++ [y]))

/-- cartesian_product from aggregate.rs: empty input list gives the
empty product. -/
def cartesian_product {α : Type} : List (List α) → List (List α)
  | [] => []
  | first :: rest => rest.foldl partial_cartesian (first.map (fun n => [n]))

/-- The internal query emitted by the resolver.  The post-aggregation
option fields (top, top_where, sort, limit, growth, rca, rate, filters
and the boolean flags), which are carried unchanged into every emitted
query, are omitted. -/
structure TsQuery where
  drilldowns : List Drilldown
  cuts : List Cut
  measures : List Measure
  parents : Bool
  properties : List Property
  captions : List Property
deriving DecidableEq, Repr

/-- The loop of generate_ts_queries (aggregate.rs lines 595-617) that
turns the dimension cuts map into the per-dimension cut lists and
collects the levels of multi-cut dimensions as drilldowns to add. -/
def build_dimension_cuts (dcm : DimCutsMap) : List (List Cut) × List LevelName :=
  dcm.foldl
    (fun acc entry =>
      let inner_cuts : List Cut := entry.2.map
        (fun lc =>
          { level_name := lc.1, members := lc.2, mask := Mask.Include, for_match := false })
      let added :=
        if 1 < entry.2.length then acc.2 ++ entry.2.map (fun lc => lc.1) else acc.2
      (acc.1 ++ [inner_cuts], added))
    ([], [])

/-- The per-combination drilldown and caption augmentation of
generate_ts_queries (aggregate.rs lines 651-665): for each cut of the
combination whose level is in the added list, push a drilldown; a
failing level lookup breaks out of the loop. -/
def query_drills_caps (cube : Cube) (locales : List String) (added : List LevelName) :
    List Cut → List Drilldown → List Property → List Drilldown × List Property
  | [], drills, caps => (drills, caps)
  | cut :: rest, drills, caps =>
    if added.contains cut.level_name then
      let drills2 := drills ++ [{ level_name := cut.level_name }]
      match cube.get_level cut.level_name with
      | none => (drills2, caps)
      | some level =>
        query_drills_caps cube locales added rest drills2
          (caps ++ level.get_captions cut.level_name locales)
    else query_drills_caps cube locales added rest drills caps

/-- The query-emission stage of generate_ts_queries (aggregate.rs lines
588-691): cartesian expansion of the per-dimension cut lists; one query
per combination, or a single query from the caller drilldown and
measure lists when there are no combinations. -/
def generate_queries (cube : Cube) (locales : List String)
    (drilldowns : List Drilldown) (measures : List Measure) (parents : Bool)
    (properties : List Property) (captions : List Property) (dcm : DimCutsMap) :
    List TsQuery :=
  let bc := build_dimension_cuts dcm
  let cut_combinations := cartesian_product bc.1
  if cut_combinations.length = 0 then
    [{ drilldowns := drilldowns, cuts := [], measures := measures, parents := parents
       properties := properties, captions := captions }]
  else
    cut_combinations.map
      (fun combo =>
        let dc := query_drills_caps cube locales bc.2 combo drilldowns captions
        { drilldowns := dc.1, cuts := combo, measures := measures, parents := parents
          properties := properties, captions := dc.2 })

/-- The cut-resolution tail of generate_ts_queries: resolve the cuts map
and emit one internal query per cut combination, together with the
header rename map. -/
def generate_ts_queries (cube : Cube) (cube_cache : CubeCache)
    (geoservice_url : Option String) (geoFn : String → Except String (List String))
    (locales : List String) (drilldowns : List Drilldown) (measures : List Measure)
    (parents : Bool) (properties : List Property) (captions : List Property)
    (cuts_map : List (String × String)) : Except String (List TsQuery × HeaderMap) := do
  let res ← resolve_cuts cube cube_cache cube_cache.level_map cube_cache.property_map
    geoservice_url geoFn cuts_map
  pure (generate_queries cube locales drilldowns measures parents properties captions res.1,
    res.2)

/-- clean_cuts_map from aggregate.rs: inject time cuts resolved through
the cube cache, then apply named-set substitutions to every value. -/
def clean_cuts_map (cuts : Option (List (String × String))) (time : Option String)
    (cube_cache : CubeCache) (ll_config : Option LogicLayerConfig) :
    Except String (List (String × String)) := do
  let m0 := cuts.getD []
  let m1 ←
    match time with
    | none => pure m0
    | some time_param =>
      (splitChar ',' time_param).foldlM
        (fun m time_cut => do
          match splitChar '.' time_cut with
          | [k, v] =>
            let t ← Time.from_key_value k v
            let cut ← cube_cache.get_time_cut t
            pure (alInsert m cut.1 cut.2)
          | _ => Except.error "Malformatted time cut")
        m0
  let m2 := m1.foldl
    (fun m entry =>
      if entry.2 = "" then m
      else
        let pieces := splitChar ',' entry.2
        let final_cuts := pieces.foldl
          (fun acc v =>
            match ll_config with
            | some conf =>
              let nv := conf.substitute_cut entry.1 v
              if nv ≠ v then acc ++ splitChar ',' nv else acc ++ [nv]
            | none => acc ++ [v])
          []
        alModify m entry.1 (fun _ => String.intercalate "," final_cuts))
    m1
  pure m2

/-! ## Schema binder (src/tesseract-core/src/lib.rs) -/

/-- TableSql: physical fact table binding passed to the generator. -/
structure TableSql where
  name : String
  primary_key : Option String
deriving DecidableEq, Repr

/-- LevelColumn: key column plus optional display-name column. -/
structure LevelColumn where
  key_column : String
  name_column : Option String
deriving DecidableEq, Repr

/-- CutSql as built by cube_cut_cols. -/
structure CutSql where
  table : Table
  primary_key : String
  foreign_key : String
  column : String
  members : List String
  member_type : MemberType
deriving DecidableEq, Repr

/-- DrilldownSql as built by cube_drill_cols. -/
structure DrilldownSql where
  table : Table
  primary_key : String
  foreign_key : String
  level_columns : List LevelColumn
  property_columns : List String
deriving DecidableEq, Repr

/-- MeasureSql as built by cube_mea_cols. -/
structure MeasureSql where
  column : String
  aggregator : String
deriving DecidableEq, Repr

/-- The back-end database tag from lib.rs; both arms of sql_query call
the same generator. -/
inductive Database where
  | Clickhouse
  | MySql
deriving DecidableEq, Repr

/-- Schema::cube_table from lib.rs. -/
def Schema.cube_table (s : Schema) (cube_name : String) : Option TableSql :=
  (s.cubes.find? (fun cube => cube.name = cube_name)).map
    (fun cube => { name := cube.table.name, primary_key := cube.table.primary_key })

/-- Schema::cube_cut_cols from lib.rs: bind each cut to its physical
columns; unknown names or a missing foreign key are errors. -/
def Schema.cube_cut_cols (s : Schema) (cube_name : String) (cuts : List Cut) :
    Except String (List CutSql) := do
  match s.cubes.find? (fun cube => cube.name = cube_name) with
  | none => Except.error "Could not find cube"
  | some cube =>
    mapME (fun cut => do
      let dim ←
        match cube.dimensions.find? (fun dim => dim.name = cut.level_name.dimension) with
        | some dim => pure dim
        | none => Except.error "could not find dimension for cut"
      let hier ←
        match dim.hierarchies.find? (fun hier => hier.name = cut.level_name.hierarchy) with
        | some hier => pure hier
        | none => Except.error "could not find hierarchy for cut"
      let level ←
        match hier.levels.find? (fun lvl => lvl.name = cut.level_name.level) with
        | some lvl => pure lvl
        | none => Except.error "could not find level for cut"
      let table := hier.table.getD cube.table
      let foreign_key ←
        match dim.foreign_key with
        | some fk => pure fk
        | none => Except.error "No foreign key; it is required for now"
      pure { table := table, primary_key := hier.primary_key, foreign_key := foreign_key
             column := level.key_column, members := cut.members
             member_type := dim.foreign_key_type.getD MemberType.NonText })
      cuts

/-- The per-drill property column extraction of cube_drill_cols: filter
the query properties to this drill and find the declared column. -/
def drill_property_columns (levels : List Level) (drill : Drilldown)
    (properties : List Property) (f : LevelProperty → String) :
    Except String (List String) :=
  mapME
    (fun p =>
      match levels.find? (fun lvl => lvl.name = p.level_name.level) with
      | none => Except.error "cannot find property"
      | some lvl =>
        match lvl.properties with
        | none => Except.error "cannot find property"
        | some props =>
          match props.find? (fun schema_p => schema_p.name = p.property) with
          | none => Except.error "cannot find property"
          | some schema_p => Except.ok (f schema_p))
    (properties.filter (fun p => p.level_name = drill.level_name))

/-- Schema::cube_drill_cols from lib.rs: bind each drilldown to its
physical columns; under parents, all levels from the top of the
hierarchy down to the requested level. -/
def Schema.cube_drill_cols (s : Schema) (cube_name : String) (drills : List Drilldown)
    (properties : List Property) (parents : Bool) : Except String (List DrilldownSql) := do
  match s.cubes.find? (fun cube => cube.name = cube_name) with
  | none => Except.error "Could not find cube"
  | some cube =>
    mapME (fun drill => do
      let dim ←
        match cube.dimensions.find? (fun dim => dim.name = drill.level_name.dimension) with
        | some dim => pure dim
        | none => Except.error "could not find dimension for drill"
      let hier ←
        match dim.hierarchies.find? (fun hier => hier.name = drill.level_name.hierarchy) with
        | some hier => pure hier
        | none => Except.error "could not find hierarchy for drill"
      let levels := hier.levels
      let property_columns ←
        drill_property_columns levels drill properties (fun p => p.column)
      let table := hier.table.getD cube.table
      let foreign_key ←
        match dim.foreign_key with
        | some fk => pure fk
        | none => Except.error "No foreign key; it is required for now"
      let level_idx ←
        match levels.findIdx? (fun lvl => lvl.name = drill.level_name.level) with
        | some idx => pure idx
        | none => Except.error "could not find hierarchy for drill"
      let level_columns :=
        if parents then
          (levels.take (level_idx + 1)).map
            (fun lvl => { key_column := lvl.key_column, name_column := lvl.name_column })
        else
          ((levels.drop level_idx).take 1).map
            (fun lvl =>
              ({ key_column := lvl.key_column, name_column := lvl.name_column } : LevelColumn))
      pure { table := table, primary_key := hier.primary_key, foreign_key := foreign_key
             level_columns := level_columns, property_columns := property_columns })
      drills

/-- Schema::cube_mea_cols from lib.rs. -/
def Schema.cube_mea_cols (s : Schema) (cube_name : String) (meas : List Measure) :
    Except String (List MeasureSql) := do
  match s.cubes.find? (fun cube => cube.name = cube_name) with
  | none => Except.error "Could not find cube"
  | some cube =>
    mapME (fun measure =>
      match cube.measures.find? (fun m => m.name = measure.name) with
      | none => Except.error "could not find measure for query"
      | some mea => Except.ok ({ column := mea.column, aggregator := mea.aggregator } : MeasureSql))
      meas

/-- The per-level header emission of cube_drill_headers: the level name
with an ID variant first when a display-name column exists. -/
def level_header_names (lvl : Level) : List String :=
  (if lvl.name_column.isSome then [lvl.name ++ " ID"] else []) ++ [lvl.name]

/-- The header group of one drilldown in cube_drill_headers (the loop
body of lib.rs lines 318-375): the level headers from the top of the
hierarchy under parents (just the requested level otherwise), then the
property headers of this drill. -/
def drill_headers_one (cube : Cube) (properties : List Property) (parents : Bool)
    (drill : Drilldown) : Except String (List String) := do
  let dim ←
    match cube.dimensions.find? (fun dim => dim.name = drill.level_name.dimension) with
    | some dim => pure dim
    | none => Except.error "could not find dimension for drill"
  let hier ←
    match dim.hierarchies.find? (fun hier => hier.name = drill.level_name.hierarchy) with
    | some hier => pure hier
    | none => Except.error "could not find hierarchy for drill"
  let levels := hier.levels
  let level_idx ←
    match levels.findIdx? (fun lvl => lvl.name = drill.level_name.level) with
    | some idx => pure idx
    | none => Except.error "could not find hierarchy for drill"
  let level_headers :=
    if parents then
      (levels.take (level_idx + 1)).flatMap level_header_names
    else
      ((levels.drop level_idx).take 1).flatMap level_header_names
  let property_headers ←
    drill_property_columns levels drill properties (fun p => p.name)
  pure (level_headers ++ property_headers)

/-- Schema::cube_drill_headers from lib.rs: ordered header names for
the drill columns, mirroring cube_drill_cols. -/
def Schema.cube_drill_headers (s : Schema) (cube_name : String) (drills : List Drilldown)
    (properties : List Property) (parents : Bool) : Except String (List String) := do
  match s.cubes.find? (fun cube => cube.name = cube_name) with
  | none => Except.error "Could not find cube"
  | some cube =>
    let groups ← mapME (drill_headers_one cube properties parents) drills
    pure groups.flatten

/-- Schema::cube_mea_headers from lib.rs: the measure names in request
order, resolved against the cube. -/
def Schema.cube_mea_headers (s : Schema) (cube_name : String) (meas : List Measure) :
    Except String (List String) := do
  match s.cubes.find? (fun cube => cube.name = cube_name) with
  | none => Except.error "Could not find cube"
  | some cube =>
    mapME (fun measure =>
      match cube.measures.find? (fun m => m.name = measure.name) with
      | none => Except.error "could not find measure in cube"
      | some mea => Except.ok mea.name)
      meas

/-- Schema::sql_query from lib.rs: validity checks, binding, header
derivation, and the call into the dialect SQL generator (passed as the
function sqlGen since the sql module is an external collaborator of
this file).  Both database arms call the same generator. -/
def Schema.sql_query (s : Schema) (cube : String) (query : TsQuery) (db : Database)
    (sqlGen : TableSql → List CutSql → List DrilldownSql → List MeasureSql → String) :
    Except String (String × List String) := do
  if query.measures.isEmpty then
    Except.error "No measure found; please specify at least one"
  else if query.drilldowns.isEmpty ∧ query.cuts.isEmpty then
    Except.error "Either a drilldown or cut is required"
  else do
    let _ ← mapME (fun property =>
      if query.drilldowns.any (fun d => d.level_name = property.level_name) then
        Except.ok ()
      else
        Except.error ("Property " ++ property.property ++ " has no matching drilldown"))
      query.properties
    let table ←
      match s.cube_table cube with
      | some t => pure t
      | none => Except.error ("No table found for cube " ++ cube)
    let cut_cols ← s.cube_cut_cols cube query.cuts
    let drill_cols ← s.cube_drill_cols cube query.drilldowns query.properties query.parents
    let mea_cols ← s.cube_mea_cols cube query.measures
    let drill_headers ← s.cube_drill_headers cube query.drilldowns query.properties query.parents
    let mea_headers ← s.cube_mea_headers cube query.measures
    let headers := drill_headers ++ mea_headers
    match db with
    | Database.Clickhouse => pure (sqlGen table cut_cols drill_cols mea_cols, headers)
    | Database.MySql => pure (sqlGen table cut_cols drill_cols mea_cols, headers)

/-! ## Clickhouse SQL generator, fact-table pass
(src/tesseract-clickhouse/src/sql/primary_agg.rs)

The sql module types (Table with full_name, the inline-table renderer,
the aggregator string formatters, the column alias renderers and
dim_subquery) live in files not under src; they are modelled from the
spec: the qualified table name and the rendered inline-table SQL are
carried as strings, and the string-producing helpers are passed in as
the SqlHelpers record. -/

namespace Clickhouse

/-- Modelled from the spec: a dimension-table reference with its
qualified rendering (full_name). -/
structure QualTable where
  name : String
  full_name : String
deriving DecidableEq, Repr

/-- Modelled from the spec: an inline table literal; sql_string is its
rendered row-set SQL. -/
structure InlineTableSql where
  sql_string : String
deriving DecidableEq, Repr

/-- CutSql of the clickhouse sql module (spec section 4.4, plus the
inline_table field used by primary_agg). -/
structure CutSql where
  table : QualTable
  primary_key : String
  foreign_key : String
  column : String
  members : List String
  member_type : MemberType
  inline_table : Option InlineTableSql
deriving DecidableEq, Repr

/-- DrilldownSql of the clickhouse sql module (spec section 4.4, plus
the inline_table field used by primary_agg). -/
structure DrilldownSql where
  table : QualTable
  primary_key : String
  foreign_key : String
  level_columns : List LevelColumn
  property_columns : List String
  inline_table : Option InlineTableSql
deriving DecidableEq, Repr

/-- A hidden drilldown wraps a DrilldownSql. -/
structure HiddenDrilldownSql where
  drilldown_sql : DrilldownSql
deriving DecidableEq, Repr

/-- DimSubquery (spec section 4.5): subquery SQL text, the dimension
foreign key, and the projected column aliases. -/
structure DimSubquery where
  sql : String
  foreign_key : String
  dim_cols : Option String
deriving DecidableEq, Repr

/-- The string-producing helpers of the clickhouse sql module that
primary_agg calls; they live in files not under src and are passed in
as functions. -/
structure SqlHelpers where
  agg_pass_1 : String → String → Nat → String
  agg_select_mea : String → Nat → String
  agg_pass_2 : String → Nat → String
  cut_sql_string : CutSql → String
  col_alias_string : DrilldownSql → String
  col_alias_only_string : DrilldownSql → String
  dim_sql : DrilldownSql → String
  dim_cols : DrilldownSql → Option String

/-- Modelled from the spec: dim_subquery builds the per-dimension
subquery record for an external drill, carrying the dimension foreign
key and the projected aliases. -/
def dim_subquery (h : SqlHelpers) (drill : DrilldownSql) : DimSubquery :=
  { sql := h.dim_sql drill, foreign_key := drill.foreign_key
    dim_cols := h.dim_cols drill }

/-- Vec::swap of two positions. -/
def listSwap {α : Type} (l : List α) (i j : Nat) : List α :=
  match l.get? i, l.get? j with
  | some a, some b => (l.set i b).set j a
  | _, _ => l

/-- The per-dimension subqueries of primary_agg: external drills are
popped (hence reversed), and the subquery whose foreign key matches the
cube primary key is swapped to the front. -/
def dim_subqueries_of (h : SqlHelpers) (table : TableSql) (drills : List DrilldownSql) :
    List DimSubquery :=
  let ext_drills := drills.filter
    (fun d => if d.inline_table.isSome then true else d.table.name != table.name)
  let base : List DimSubquery := ext_drills.reverse.map (dim_subquery h)
  match table.primary_key with
  | some pk =>
    match base.findIdx? (fun d => d.foreign_key == pk) with
    | some idx => listSwap base 0 idx
    | none => base
  | none => base

/-- The grouped column alias list of the fact-table pass: inline drill
aliases then the dim-subquery foreign keys. -/
def all_fact_dim_aliass_of (h : SqlHelpers) (table : TableSql)
    (drills : List DrilldownSql) : String :=
  let inline_drills := drills.filter
    (fun d => if d.inline_table.isSome then false else d.table.name == table.name)
  String.intercalate ", " (inline_drills.map h.col_alias_only_string ++
    (dim_subqueries_of h table drills).map (fun d => d.foreign_key))

/-- The subselect emitted for one external cut in the fact-table pass:
fk in (select pk from cut_table), with a member filter when the cut has
members, and the inline table spliced in when present. -/
def ext_cut_subselect (h : SqlHelpers) (c : CutSql) : String :=
  let cut_table :=
    match c.inline_table with
    | some it => "(" ++ it.sql_string ++ ") as " ++ c.table.full_name
    | none => c.table.full_name
  if c.members.isEmpty then
    c.foreign_key ++ " in (select " ++ c.primary_key ++ " from " ++ cut_table ++ ")"
  else
    c.foreign_key ++ " in (select " ++ c.primary_key ++ " from " ++ cut_table ++
      " where " ++ h.cut_sql_string c ++ ")"

/-- The fact-table aggregate (pass 2) of primary_agg: select the inline
drill columns, the dim foreign keys, the hidden drill columns and the
pass-1 measure expressions from the fact table, with the cut clause and
the group-by. -/
def fact_sql_of (h : SqlHelpers) (table : TableSql) (cuts : List CutSql)
    (drills : List DrilldownSql) (meas : List MeasureSql)
    (hidden_drills : Option (List HiddenDrilldownSql)) : String :=
  let ext_cuts := cuts.filter
    (fun c => c.table.name != table.name || c.inline_table.isSome)
  let ext_cuts_for_inline := ext_cuts
  let inline_drills := drills.filter
    (fun d => if d.inline_table.isSome then false else d.table.name == table.name)
  let inline_cuts := cuts.filter
    (fun c => c.table.name == table.name && ! c.inline_table.isSome)
  let mea_cols := String.intercalate ", "
    (meas.enum.map (fun im => h.agg_pass_1 im.2.column im.2.aggregator im.1))
  let inline_dim_cols := inline_drills.map h.col_alias_string
  let dim_idx_cols := (dim_subqueries_of h table drills).map (fun d => d.foreign_key)
  let all_fact_dim_cols := String.intercalate ", " (inline_dim_cols ++ dim_idx_cols)
  let all_fact_dim_aliass := all_fact_dim_aliass_of h table drills
  let hidden := hidden_drills.getD []
  let hidden_dim_cols := String.intercalate ", "
    (hidden.map (fun d => h.col_alias_string d.drilldown_sql))
  let fact_sql := "select " ++ all_fact_dim_cols
  let fact_sql := if ¬ hidden.isEmpty then fact_sql ++ ", " ++ hidden_dim_cols else fact_sql
  let fact_sql := fact_sql ++ ", " ++ mea_cols ++ " from " ++ table.name
  let fact_sql :=
    if 0 < inline_cuts.length ∨ 0 < ext_cuts_for_inline.length then
      let inline_cut_clause := inline_cuts.map h.cut_sql_string
      let ext_cut_clause := ext_cuts_for_inline.map (ext_cut_subselect h)
      let cut_clause := String.intercalate "and " (inline_cut_clause ++ ext_cut_clause)
      fact_sql ++ " where " ++ cut_clause
    else fact_sql
  let fact_sql := fact_sql ++ " group by " ++ all_fact_dim_aliass
  if ¬ hidden.isEmpty then fact_sql ++ ", " ++ hidden_dim_cols else fact_sql

/-- primary_agg from primary_agg.rs: the three-pass star aggregation,
with the dim subqueries and the fact-table pass factored into the named
stages above.  Returns the final SQL string and the final drill column
list. -/
def primary_agg (h : SqlHelpers) (table : TableSql) (cuts : List CutSql)
    (drills : List DrilldownSql) (meas : List MeasureSql)
    (hidden_drills : Option (List HiddenDrilldownSql)) : String × String :=
  let dim_subqueries := dim_subqueries_of h table drills
  let fact_sql := fact_sql_of h table cuts drills meas hidden_drills
  -- pass 3: fold the dim subqueries over the fact aggregate
  let select_mea_cols := String.intercalate ", "
    (meas.enum.map (fun im => h.agg_select_mea im.2.aggregator im.1))
  let folded := dim_subqueries.foldl
    (fun (acc : String × List String) dsq =>
      let current :=
        match dsq.dim_cols with
        | some cols => acc.2 ++ [cols]
        | none => acc.2
      let sub_queries_dim_cols :=
        if ¬ current.isEmpty then String.intercalate ", " current ++ ", " else ""
      ("select " ++ sub_queries_dim_cols ++ select_mea_cols ++ " from (" ++ dsq.sql ++
         ") all inner join (" ++ acc.1 ++ ") using " ++ dsq.foreign_key,
       current))
    (fact_sql, [all_fact_dim_aliass_of h table drills])
  let final_drill_cols := String.intercalate ", " (drills.map h.col_alias_only_string)
  let final_mea_cols := String.intercalate ", "
    (meas.enum.map (fun im => h.agg_pass_2 im.2.aggregator im.1))
  let final_sql := "select " ++ final_drill_cols ++ ", " ++ final_mea_cols ++
    " from (" ++ folded.1 ++ ") group by " ++ final_drill_cols
  (final_sql, final_drill_cols)

end Clickhouse

/-! ## Helper and specification-side definitions -/

/-- Success test for Except. -/
def exceptIsOk {ε α : Type} : Except ε α → Bool
  | Except.ok _ => true
  | Except.error _ => false

/-- The cached sorted value list of a cube for a time precision. -/
def cache_time_values (c : CubeCache) : TimePrecision → Option (List String)
  | TimePrecision.Year => c.year_values
  | TimePrecision.Quarter => c.quarter_values
  | TimePrecision.Month => c.month_values
  | TimePrecision.Week => c.week_values
  | TimePrecision.Day => c.day_values

/-- The cached level of a cube for a time precision. -/
def cache_time_level (c : CubeCache) : TimePrecision → Option Level
  | TimePrecision.Year => c.year_level
  | TimePrecision.Quarter => c.quarter_level
  | TimePrecision.Month => c.month_level
  | TimePrecision.Week => c.week_level
  | TimePrecision.Day => c.day_level

/-- The neighbor window the spec describes for the key at index i: up
to two immediately preceding keys and up to two immediately following
keys, truncated at the list boundaries. -/
def neighbors_window (ids : List String) (i : Nat) : List String :=
  (ids.take i).drop (i - 2) ++ (ids.drop (i + 1)).take 2

/-- The cut list a dimension entry of the cuts map induces: one cut per
cut level, with the accumulated members. -/
def inner_cuts_of (e : String × List (LevelName × List String)) : List Cut :=
  e.2.map
    (fun lc =>
      { level_name := lc.1, members := lc.2, mask := Mask.Include, for_match := false })

/-- The levels of dimensions that carry more than one cut level; these
are the drilldowns the resolver adds to expanded queries. -/
def multi_cut_levels (dcm : DimCutsMap) : List LevelName :=
  (dcm.filter (fun e => decide (1 < e.2.length))).flatMap (fun e => e.2.map Prod.fst)

/-- One ancestor step of the parents ascent, as a fold step: look up the
original cut element in the parent map of the current level, emit at
the ancestor level and advance on a hit, keep the current level on a
miss; the header map gains an entry for every ancestor visited. -/
def parents_step (cube_cache : CubeCache) (cut : String)
    (st : LevelName × DimCutsMap × HeaderMap) (pl : Level) :
    LevelName × DimCutsMap × HeaderMap :=
  let pln : LevelName :=
    { dimension := st.1.dimension, hierarchy := st.1.hierarchy, level := pl.name }
  let hm2 := alEntryOrInsert st.2.2 pln.level pln.dimension
  match ((alGet? cube_cache.level_caches st.1.level).bind
      (fun lc => lc.parent_map)).bind (fun pm => alGet? pm cut) with
  | some parent_id => (pln, add_cut_entries st.2.1 pln [parent_id], hm2)
  | none => (st.1, st.2.1, hm2)

/-- The header group of one drilldown as the spec describes it
(section 4.4): for each level from the top of the hierarchy down to the
requested one under parents (just the requested one otherwise), the
level name preceded by the ID variant exactly when a display-name
column exists; then the property names of this drill in declared
order. -/
def drill_headers_spec (cube : Cube) (parents : Bool) (properties : List Property)
    (drill : Drilldown) : Option (List String) := do
  let dim ← cube.dimensions.find? (fun d => d.name = drill.level_name.dimension)
  let hier ← dim.hierarchies.find? (fun h => h.name = drill.level_name.hierarchy)
  let idx ← hier.levels.findIdx? (fun l => l.name = drill.level_name.level)
  let requested ← hier.levels.get? idx
  let lvls := if parents then hier.levels.take (idx + 1) else [requested]
  let level_part := lvls.flatMap
    (fun lvl => (if lvl.name_column.isSome then [lvl.name ++ " ID"] else []) ++ [lvl.name])
  let prop_part ← mapMO
    (fun p => do
      let lvl ← hier.levels.find? (fun l => l.name = p.level_name.level)
      let props ← lvl.properties
      let sp ← props.find? (fun q => q.name = p.property)
      pure sp.name)
    (properties.filter (fun p => p.level_name = drill.level_name))
  pure (level_part ++ prop_part)

/-! ## Concrete fixtures used by witnesses and counterexamples -/

/-- Level A: top of the generic hierarchy, no display name column. -/
def lvlA : Level := { name := "A", key_column := "a_id", name_column := none, properties := none }

/-- Level B: middle level with a display name column. -/
def lvlB : Level :=
  { name := "B", key_column := "b_id", name_column := some "b_name", properties := none }

/-- Level C: deepest level, carrying one declared property. -/
def lvlC : Level :=
  { name := "C", key_column := "c_id", name_column := none
    properties := some [{ name := "PropC", column := "pc_col", caption_set := none }] }

/-- Geo level. -/
def lvlG : Level := { name := "Gl", key_column := "g_id", name_column := none, properties := none }

/-- Hierarchy H with levels A, B, C (shallow to deep). -/
def hierH : Hierarchy :=
  { name := "H", table := some { name := "dim_d", primary_key := none }
    primary_key := "c_id", levels := [lvlA, lvlB, lvlC] }

/-- Geo hierarchy. -/
def hierGH : Hierarchy :=
  { name := "GH", table := some { name := "dim_g", primary_key := none }
    primary_key := "g_id", levels := [lvlG] }

/-- Generic dimension D. -/
def dimD : Dimension :=
  { name := "D", foreign_key := some "d_fk", foreign_key_type := none
    dim_type := DimensionType.Generic, hierarchies := [hierH] }

/-- Geo-tagged dimension G. -/
def dimG : Dimension :=
  { name := "G", foreign_key := some "g_fk", foreign_key_type := none
    dim_type := DimensionType.Geo, hierarchies := [hierGH] }

/-- The fixture cube. -/
def cube0 : Cube :=
  { name := "Sales", table := { name := "fact", primary_key := none }
    dimensions := [dimD, dimG]
    measures := [{ name := "Revenue", column := "rev", aggregator := "sum" }] }

/-- The fixture schema. -/
def schema0 : Schema := { cubes := [cube0] }

/-- Level names of the fixture cube. -/
def lnA : LevelName := { dimension := "D", hierarchy := "H", level := "A" }

/-- Level name B. -/
def lnB : LevelName := { dimension := "D", hierarchy := "H", level := "B" }

/-- Level name C. -/
def lnC : LevelName := { dimension := "D", hierarchy := "H", level := "C" }

/-- Level name of the geo level. -/
def lnG : LevelName := { dimension := "G", hierarchy := "GH", level := "Gl" }

/-- Fixture level caches: the element c1 at level C has parent b1, and
b1 at level B has parent a1; the geo level has a cached neighbors
window for g1. -/
def cache0 : CubeCache :=
  { name := "Sales"
    year_level := some { name := "Year", key_column := "year", name_column := none, properties := none }
    year_values := some ["2018", "2019", "2020"]
    quarter_level := none, quarter_values := none
    month_level := none, month_values := none
    week_level := none, week_values := none
    day_level := none, day_values := none
    level_map := [("A", lnA), ("B", lnB), ("C", lnC), ("Gl", lnG)]
    property_map := []
    level_caches :=
      [("A", { parent_map := none, children_map := none, neighbors_map := [] }),
       ("B", { parent_map := some [("b1", "a1")], children_map := none, neighbors_map := [] }),
       ("C", { parent_map := some [("c1", "b1")], children_map := none, neighbors_map := [] }),
       ("Gl", { parent_map := none, children_map := none
                neighbors_map := [("g1", ["g0", "g2"])] })]
    dimension_caches := [("D", { id_map := [("c1", [lnC])] }), ("G", { id_map := [] })] }

/-- A geoservice stand-in that returns two neighbor ids. -/
def geoFn0 : String → Except String (List String) := fun _ => Except.ok ["n1", "n2"]

/-- A dimension cuts map with two cut levels on dimension D. -/
def dcm0 : DimCutsMap := [("D", [(lnB, ["b1"]), (lnC, ["c1"])])]

/-- Concrete SQL helper functions for the clickhouse generator
witness. -/
def helpers0 : Clickhouse.SqlHelpers :=
  { agg_pass_1 := fun col agg i => agg ++ "(" ++ col ++ ") as m" ++ toString i
    agg_select_mea := fun _agg i => "m" ++ toString i
    agg_pass_2 := fun agg i => agg ++ "(m" ++ toString i ++ ") as final_m" ++ toString i
    cut_sql_string := fun c => c.column ++ " in (" ++ String.intercalate ", " c.members ++ ")"
    col_alias_string := fun d => String.intercalate ", " (d.level_columns.map (fun lc => lc.key_column))
    col_alias_only_string := fun d => String.intercalate ", " (d.level_columns.map (fun lc => lc.key_column))
    dim_sql := fun d => "select " ++ d.primary_key ++ " from " ++ d.table.name
    dim_cols := fun d => some (String.intercalate ", " (d.level_columns.map (fun lc => lc.key_column))) }

/-- An external cut with an empty member list. -/
def cutEmpty : Clickhouse.CutSql :=
  { table := { name := "dim_d", full_name := "dim_d" }, primary_key := "c_id"
    foreign_key := "d_fk", column := "c_id", members := []
    member_type := MemberType.NonText, inline_table := none }

/-- An external cut with members. -/
def cutMembers : Clickhouse.CutSql :=
  { table := { name := "dim_g", full_name := "dim_g" }, primary_key := "g_id"
    foreign_key := "g_fk", column := "g_id", members := ["x", "y"]
    member_type := MemberType.NonText, inline_table := none }

/-- The fact table of the clickhouse fixtures. -/
def tableCh : TableSql := { name := "fact", primary_key := none }

/-! ## Lemmas: association lists -/

theorem alGet?_alInsert_self {K V : Type} [DecidableEq K]
    (m : List (K × V)) (k : K) (v : V) :
    alGet? (alInsert m k v) k = some v := by
  induction m with
  | nil => simp [alInsert, alGet?, List.find?]
  | cons e rest ih =>
    by_cases h : e.1 = k
    · simp [alInsert, h, alGet?, List.find?]
    · simp only [alInsert, if_neg h]
      simpa [alGet?, List.find?, h] using ih

theorem alGet?_alInsert_ne {K V : Type} [DecidableEq K]
    (m : List (K × V)) (k q : K) (v : V) (h : q ≠ k) :
    alGet? (alInsert m k v) q = alGet? m q := by
  induction m with
  | nil => simp [alInsert, alGet?, List.find?, Ne.symm h]
  | cons e rest ih =>
    by_cases he : e.1 = k
    · simp [alInsert, he, alGet?, List.find?, Ne.symm h, he ▸ Ne.symm h]
    · simp only [alInsert, if_neg he]
      by_cases heq : e.1 = q
      · simp [alGet?, List.find?, heq]
      · simpa [alGet?, List.find?, heq] using ih

theorem alInsert_length_of_absent {K V : Type} [DecidableEq K]
    (m : List (K × V)) (k : K) (v : V) (h : alGet? m k = none) :
    (alInsert m k v).length = m.length + 1 := by
  induction m with
  | nil => simp [alInsert]
  | cons e rest ih =>
    by_cases he : e.1 = k
    · simp [alGet?, List.find?, he] at h
    · simp only [alInsert, if_neg he, List.length_cons]
      have : alGet? rest k = none := by
        simpa [alGet?, List.find?, he] using h
      simp [ih this]

/-! ## Lemmas: cartesian product -/

theorem partial_cartesian_length {α : Type} (a : List (List α)) (b : List α) :
    (partial_cartesian a b).length = a.length * b.length := by
  induction a with
  | nil => simp [partial_cartesian]
  | cons xs rest ih =>
    simp only [partial_cartesian, List.flatMap_cons, List.length_append,
      List.length_map, List.length_cons] at *
    rw [ih]
    ring

theorem foldl_partial_cartesian_length {α : Type} (rest : List (List α)) :
    ∀ acc : List (List α),
      (rest.foldl partial_cartesian acc).length =
        acc.length * (rest.map List.length).prod := by
  induction rest with
  | nil => intro acc; simp
  | cons b bs ih =>
    intro acc
    simp only [List.foldl_cons, List.map_cons, List.prod_cons]
    rw [ih, partial_cartesian_length]
    ring

theorem cartesian_product_length {α : Type} (L : List (List α)) (h : L ≠ []) :
    (cartesian_product L).length = (L.map List.length).prod := by
  match L, h with
  | first :: rest, _ =>
    simp only [cartesian_product]
    rw [foldl_partial_cartesian_length]
    simp

theorem mem_partial_cartesian {α : Type} (a : List (List α)) (b : List α)
    (x : List α) (hx : x ∈ partial_cartesian a b) :
    ∃ xs ∈ a, ∃ y ∈ b, x = xs ++ [y] := by
  simp only [partial_cartesian, List.mem_flatMap, List.mem_map] at hx
  obtain ⟨xs, hxs, y, hy, rfl⟩ := hx
  exact ⟨xs, hxs, y, hy, rfl⟩

theorem foldl_partial_cartesian_mem {α : Type} (rest : List (List α)) :
    ∀ (acc : List (List α)) (L0 : List (List α)),
      (∀ x ∈ acc, List.Forall₂ (fun y l => y ∈ l) x L0) →
      ∀ x ∈ rest.foldl partial_cartesian acc,
        List.Forall₂ (fun y l => y ∈ l) x (L0 ++ rest) := by
  induction rest with
  | nil => intro acc L0 hacc x hx; simpa using hacc x hx
  | cons b bs ih =>
    intro acc L0 hacc x hx
    simp only [List.foldl_cons] at hx
    have step : ∀ z ∈ partial_cartesian acc b,
        List.Forall₂ (fun y l => y ∈ l) z (L0 ++ [b]) := by
      intro z hz
      obtain ⟨xs, hxs, y, hy, rfl⟩ := mem_partial_cartesian acc b z hz
      exact List.rel_append (hacc xs hxs) (by simp [hy])
    have := ih (partial_cartesian acc b) (L0 ++ [b]) step x hx
    simpa [List.append_assoc] using this

theorem mem_cartesian_product {α : Type} (L : List (List α)) (x : List α)
    (hx : x ∈ cartesian_product L) :
    List.Forall₂ (fun y l => y ∈ l) x L := by
  match L with
  | [] => simp [cartesian_product] at hx
  | first :: rest =>
    simp only [cartesian_product] at hx
    have init : ∀ z ∈ first.map (fun n => [n]),
        List.Forall₂ (fun y l => y ∈ l) z [first] := by
      intro z hz
      simp only [List.mem_map] at hz
      obtain ⟨n, hn, rfl⟩ := hz
      simp [hn]
    simpa using foldl_partial_cartesian_mem rest _ [first] init x hx

/-! ## Lemmas: query emission (C1, C2) -/

theorem build_dimension_cuts_eq (dcm : DimCutsMap) :
    build_dimension_cuts dcm = (dcm.map inner_cuts_of, multi_cut_levels dcm) := by
  suffices h : ∀ acc1 acc2,
      dcm.foldl
        (fun acc entry =>
          let inner_cuts : List Cut := entry.2.map
            (fun lc =>
              { level_name := lc.1, members := lc.2, mask := Mask.Include
                for_match := false })
          let added :=
            if 1 < entry.2.length then acc.2 ++ entry.2.map (fun lc => lc.1) else acc.2
          (acc.1 ++ [inner_cuts], added))
        (acc1, acc2) =
      (acc1 ++ dcm.map inner_cuts_of, acc2 ++ multi_cut_levels dcm) by
    simpa [build_dimension_cuts] using h [] []
  induction dcm with
  | nil => intro acc1 acc2; simp [multi_cut_levels]
  | cons e rest ih =>
    intro acc1 acc2
    simp only [List.foldl_cons]
    rw [ih]
    by_cases h1 : 1 < e.2.length
    · simp [multi_cut_levels, inner_cuts_of, h1, List.filter_cons]
    · simp [multi_cut_levels, inner_cuts_of, h1, List.filter_cons]

theorem query_drills_caps_fst (cube : Cube) (locales : List String)
    (added : List LevelName) :
    ∀ (combo : List Cut) (drills : List Drilldown) (caps : List Property),
      (∀ c ∈ combo, added.contains c.level_name = true →
        (cube.get_level c.level_name).isSome = true) →
      (query_drills_caps cube locales added combo drills caps).1 =
        drills ++ (combo.filter (fun c => added.contains c.level_name)).map
          (fun c => { level_name := c.level_name }) := by
  intro combo
  induction combo with
  | nil => intro drills caps _; simp [query_drills_caps]
  | cons cut rest ih =>
    intro drills caps hget
    by_cases hc : added.contains cut.level_name = true
    · have hsome := hget cut (by simp) hc
      obtain ⟨level, hlevel⟩ := Option.isSome_iff_exists.mp hsome
      have := ih (drills ++ [{ level_name := cut.level_name }])
        (caps ++ level.get_captions cut.level_name locales)
        (fun c hcm hca => hget c (by simp [hcm]) hca)
      simp only [query_drills_caps, hc, if_true, hlevel]
      rw [this]
      have hmem : cut.level_name ∈ added := by simpa using hc
      simp [List.filter_cons, hmem]
    · have hcf : added.contains cut.level_name = false := by
        revert hc
        cases added.contains cut.level_name <;> simp
      have := ih drills caps (fun c hcm hca => hget c (by simp [hcm]) hca)
      simp only [query_drills_caps, hcf, if_false, Bool.false_eq_true]
      rw [this]
      have hmem : cut.level_name ∉ added := by simpa using hcf
      simp [List.filter_cons, hmem]

/-- C1: for a resolved cuts map spanning N dimensions with K1, ..., KN
distinct cut levels per dimension (each Ki at least 1), the query
emission stage of generate_ts_queries emits exactly K1 * ... * KN
internal queries, each containing exactly one cut per dimension (drawn
from that dimension's cut list); when the resolved cut map is empty it
emits exactly one internal query built from the caller drilldowns and
measures. -/
theorem generate_queries_cartesian_completeness (cube : Cube) (locales : List String)
    (dd : List Drilldown) (ms : List Measure) (par : Bool) (props caps : List Property)
    (dcm : DimCutsMap)
    (hne : ∀ e ∈ dcm, e.2 ≠ [])
    (hdistinct : ∀ e ∈ dcm, (e.2.map Prod.fst).Nodup) :
    (dcm = [] →
      generate_queries cube locales dd ms par props caps dcm =
        [{ drilldowns := dd, cuts := [], measures := ms, parents := par
           properties := props, captions := caps }]) ∧
    (dcm ≠ [] →
      (generate_queries cube locales dd ms par props caps dcm).length =
          (dcm.map (fun e => e.2.length)).prod ∧
      ∀ q ∈ generate_queries cube locales dd ms par props caps dcm,
        List.Forall₂ (fun (c : Cut) e => c ∈ inner_cuts_of e) q.cuts dcm) := by
  constructor
  · rintro rfl
    simp [generate_queries, build_dimension_cuts, cartesian_product]
  · intro hdcm
    have hlen : (cartesian_product (build_dimension_cuts dcm).1).length =
        (dcm.map (fun e => e.2.length)).prod := by
      rw [build_dimension_cuts_eq]
      rw [cartesian_product_length]
      · simp only [List.map_map]
        congr 1
        apply List.map_congr_left
        intro e _
        simp [inner_cuts_of]
      · simp only [ne_eq, List.map_eq_nil_iff]
        exact hdcm
    have hpos : 0 < (dcm.map (fun e => e.2.length)).prod := by
      apply List.prod_pos
      intro x hx
      simp only [List.mem_map] at hx
      obtain ⟨e, he, rfl⟩ := hx
      have := hne e he
      cases h2 : e.2 with
      | nil => exact absurd h2 this
      | cons a l => simp [h2]
    have hcomb : ¬ (cartesian_product (build_dimension_cuts dcm).1).length = 0 := by
      omega
    constructor
    · simp only [generate_queries, if_neg hcomb, List.length_map]
      exact hlen
    · intro q hq
      simp only [generate_queries, if_neg hcomb, List.mem_map] at hq
      obtain ⟨combo, hcombo, rfl⟩ := hq
      have hmem := mem_cartesian_product _ combo hcombo
      rw [build_dimension_cuts_eq] at hmem
      simpa [List.forall₂_map_right_iff] using hmem

/-- Witness for C1 at the fixture cuts map with two cut levels on one
dimension: two queries are emitted, and each query has exactly one cut
drawn from the dimension cut list. -/
theorem generate_queries_cartesian_completeness_witness :
    (generate_queries cube0 [] [] [] false [] [] dcm0).length =
        (dcm0.map (fun e => e.2.length)).prod ∧
      ∀ q ∈ generate_queries cube0 [] [] [] false [] [] dcm0,
        List.Forall₂ (fun (c : Cut) e => c ∈ inner_cuts_of e) q.cuts dcm0 :=
  (generate_queries_cartesian_completeness cube0 [] [] [] false [] [] dcm0
    (by decide) (by decide)).2 (by decide)

/-- Counterexample to C2: on the fixture cuts map, dimension D has two
cut levels B and C; the claim requires both B and C to appear as extra
drilldowns in every expanded query, but the query whose cut is on B
receives only the drilldown B and not C. -/
theorem generate_queries_added_drilldowns_counterexample :
    ¬ ∀ q ∈ generate_queries cube0 [] [] [] false [] [] dcm0,
        ({ level_name := lnC } : Drilldown) ∈ q.drilldowns := by
  decide

/-- C2 amended: each expanded query gains as extra drilldowns exactly
the levels of its own cuts that belong to dimensions with more than one
cut level, appended in cut order to the caller drilldowns (a level of a
multi-cut dimension therefore appears as an extra drilldown only in the
queries that cut on it, not in every expanded query). -/
theorem generate_queries_added_drilldowns (cube : Cube) (locales : List String)
    (dd : List Drilldown) (ms : List Measure) (par : Bool) (props caps : List Property)
    (dcm : DimCutsMap)
    (hget : ∀ ln ∈ multi_cut_levels dcm, (cube.get_level ln).isSome = true) :
    ∀ q ∈ generate_queries cube locales dd ms par props caps dcm,
      q.drilldowns =
        dd ++ (q.cuts.filter
            (fun c => (multi_cut_levels dcm).contains c.level_name)).map
          (fun c => { level_name := c.level_name }) := by
  intro q hq
  simp only [generate_queries] at hq
  by_cases hcomb : (cartesian_product (build_dimension_cuts dcm).1).length = 0
  · simp only [if_pos hcomb, List.mem_singleton] at hq
    subst hq
    simp
  · simp only [if_neg hcomb, List.mem_map] at hq
    obtain ⟨combo, hcombo, rfl⟩ := hq
    simp only
    rw [query_drills_caps_fst]
    · congr 2
      rw [build_dimension_cuts_eq]
    · intro c _ hca
      apply hget
      rw [build_dimension_cuts_eq] at hca
      simpa using hca

/-- Witness for the amended C2 at the fixture cuts map: the first
expanded query cuts on level B and gains exactly the drilldown B. -/
theorem generate_queries_added_drilldowns_witness :
    ({ drilldowns := [{ level_name := lnB }]
       cuts := [{ level_name := lnB, members := ["b1"], mask := Mask.Include
                  for_match := false }]
       measures := [], parents := false, properties := [], captions := [] } :
        TsQuery).drilldowns =
      [] ++ (({ drilldowns := [{ level_name := lnB }]
                cuts := [{ level_name := lnB, members := ["b1"], mask := Mask.Include
                           for_match := false }]
                measures := [], parents := false, properties := [], captions := [] } :
          TsQuery).cuts.filter
          (fun c => (multi_cut_levels dcm0).contains c.level_name)).map
        (fun c => { level_name := c.level_name }) :=
  generate_queries_added_drilldowns cube0 [] [] [] false [] [] dcm0 (by decide) _
    (by decide)

/-! ## Lemmas: the parents ascent (C3) -/

theorem parents_walk_eq_foldl (cube_cache : CubeCache) (cut : String) :
    ∀ (pls : List Level) (ln : LevelName) (dcm : DimCutsMap) (hm : HeaderMap),
      (∀ l ∈ ln.level :: pls.map Level.name,
        (alGet? cube_cache.level_caches l).isSome = true) →
      parents_walk cube_cache cut pls ln dcm hm =
        Except.ok ((pls.foldl (parents_step cube_cache cut) (ln, dcm, hm)).2) := by
  intro pls
  induction pls with
  | nil => intro ln dcm hm _; rfl
  | cons pl rest ih =>
    intro ln dcm hm hc
    have hln : (alGet? cube_cache.level_caches ln.level).isSome = true := by
      exact hc ln.level (by simp)
    obtain ⟨lc, hlc⟩ := Option.isSome_iff_exists.mp hln
    have hrest : ∀ nl : LevelName, nl.level ∈ ln.level :: (pl :: rest).map Level.name →
        (∀ l ∈ nl.level :: rest.map Level.name,
          (alGet? cube_cache.level_caches l).isSome = true) := by
      intro nl hnl l hl
      rcases List.mem_cons.mp hl with h1 | h1
      · exact hc l (h1 ▸ hnl)
      · exact hc l (by simp [h1])
    simp only [parents_walk, parents_step, hlc, Option.bind_some]
    cases hpm : lc.parent_map with
    | none =>
      simp only [Option.bind_none]
      rw [ih ln dcm _ (hrest ln (by simp))]
      simp [List.foldl_cons, parents_step, hlc, hpm]
    | some pm =>
      cases hget : alGet? pm cut with
      | none =>
        simp only [Option.bind_some, hget]
        rw [ih ln dcm _ (hrest ln (by simp))]
        simp [List.foldl_cons, parents_step, hlc, hpm, hget]
      | some parent_id =>
        simp only [Option.bind_some, hget]
        rw [ih _ _ _ (hrest { dimension := ln.dimension, hierarchy := ln.hierarchy
                              level := pl.name } (by simp))]
        simp [List.foldl_cons, parents_step, hlc, hpm, hget]

/-- Counterexample to C3: with a three-level hierarchy A, B, C, the
element c1 at level C whose parent is b1 and whose grandparent link
b1 to a1 is cached at level B, the claim predicts the walk to emit
(B, b1) and then (A, a1) by updating the current element to b1.  The
code never updates the element: at ancestor A it looks up the original
element c1 in the parent map of level B, misses, and continues, so only
the (B, b1) entry is emitted and no level-A entry exists. -/
theorem resolve_cuts_parents_counterexample :
    ¬ ∀ (dcm : DimCutsMap) (hm : HeaderMap),
        resolve_cuts cube0 cache0 cache0.level_map cache0.property_map none geoFn0
            [("C", "c1:parents")] =
          Except.ok (dcm, hm) →
        ∃ e ∈ dcm, ∃ lc ∈ e.2, lc.1 = lnA ∧ lc.2 = ["a1"] := by
  intro h
  have h2 := h [("D", [(lnB, ["b1"])])] [("C", "D"), ("B", "D"), ("A", "D")] (by decide)
  revert h2
  decide

/-- C3 amended: for a cut value of the form element colon parents whose
key resolves through the level map, resolve_one_cut records the level
match and the header entry, then walks the ancestor levels
deepest-first; every ancestor lookup fetches the parent id of the
ORIGINAL cut element from the level cache of the current level (the cut
level initially, advanced to an ancestor only after a successful
fetch); a hit emits one cut entry at that ancestor level, while a
missing link skips that ancestor and continues with the current level
unchanged, rather than terminating the ascent. -/
theorem resolve_one_cut_parents (cube : Cube) (cache : CubeCache)
    (lm : List (String × LevelName)) (url : Option String)
    (geoFn : String → Except String (List String)) (st : ResolveState)
    (cut_key cut_value elem : String) (ln : LevelName) (pls : List Level)
    (hv : splitChar ':' cut_value = [elem, "parents"])
    (hdc : alGet? cache.dimension_caches cut_key = none)
    (hlm : alGet? lm cut_key = some ln)
    (hpar : cube.get_level_parents ln = Except.ok pls)
    (hne : pls ≠ [])
    (hcache : ∀ l ∈ ln.level :: pls.reverse.map Level.name,
      (alGet? cache.level_caches l).isSome = true) :
    resolve_one_cut cube cache lm url geoFn st cut_key cut_value =
      Except.ok
        { dcm := (pls.reverse.foldl (parents_step cache elem)
            (ln, st.dcm, alEntryOrInsert st.header_map ln.level ln.dimension)).2.1
          header_map := (pls.reverse.foldl (parents_step cache elem)
            (ln, st.dcm, alEntryOrInsert st.header_map ln.level ln.dimension)).2.2
          level_matches := st.level_matches ++ [ln] } := by
  have hlen : ([elem, "parents"] : List String).length = 2 := rfl
  have hwalk := parents_walk_eq_foldl cache elem pls.reverse ln st.dcm
    (alEntryOrInsert st.header_map ln.level ln.dimension) hcache
  simp only [resolve_one_cut, hv, List.head?, hdc, hlm, List.length_cons,
    List.length_nil, List.get?]
  norm_num
  rw [if_neg (show ("parents" : String) ≠ "children" by decide)]
  rw [hpar]
  simp only [if_neg hne]
  rw [hwalk]
  simp [List.foldl_reverse]

/-- Witness for the amended C3 at the fixture: the walk over ancestors
B then A emits only the level-B entry (the level-A lookup of the
original element c1 misses), records the level match and all three
header entries. -/
theorem resolve_one_cut_parents_witness :
    resolve_one_cut cube0 cache0 cache0.level_map none geoFn0
        { dcm := [], header_map := [], level_matches := [] } "C" "c1:parents" =
      Except.ok
        { dcm := [("D", [(lnB, ["b1"])])]
          header_map := [("C", "D"), ("B", "D"), ("A", "D")]
          level_matches := [lnC] } := by
  rw [resolve_one_cut_parents cube0 cache0 cache0.level_map none geoFn0
    { dcm := [], header_map := [], level_matches := [] } "C" "c1:parents" "c1" lnC
    [lvlA, lvlB] (by decide) (by decide) (by decide) (by decide) (by decide) (by decide)]
  decide

/-! ## The neighbors branch (C8) -/

/-- Counterexample to C8: the fixture level Gl lies in the geo-tagged
dimension G and the cache holds a neighbors window for the element g1,
yet with no geo-service URL configured resolve_cuts returns an error
instead of falling back to the cached window. -/
theorem resolve_cuts_neighbors_counterexample :
    resolve_cuts cube0 cache0 cache0.level_map cache0.property_map none geoFn0
        [("Gl", "g1:neighbors")] =
      Except.error
        "Unable to perform geoservice request: A Geoservice URL has not been provided." := by
  decide

/-- C8 amended: for a cut value of the form element colon neighbors
whose key resolves through the level map, with the dimension of the
level known: if the dimension is geo-tagged and a geo-service URL is
configured, the neighbor ids obtained synchronously from the
geo-service are added to the dimension cuts map; if the dimension is
geo-tagged and no URL is configured, resolution fails with an error
(it does NOT fall back to the cache); if the dimension is not
geo-tagged, the cached neighbors window of the element is added to the
dimension cuts map. -/
theorem resolve_one_cut_neighbors_cases (cube : Cube) (cache : CubeCache)
    (lm : List (String × LevelName)) (url : Option String)
    (geoFn : String → Except String (List String)) (st : ResolveState)
    (cut_key cut_value elem : String) (ln : LevelName) (dim : Dimension)
    (hv : splitChar ':' cut_value = [elem, "neighbors"])
    (hdc : alGet? cache.dimension_caches cut_key = none)
    (hlm : alGet? lm cut_key = some ln)
    (hdim : cube.get_dimension ln = some dim) :
    (dim.dim_type = DimensionType.Geo →
      (∀ u ids, url = some u → geoFn elem = Except.ok ids →
        resolve_one_cut cube cache lm url geoFn st cut_key cut_value =
          Except.ok
            { dcm := add_cut_entries st.dcm ln ids
              header_map := alEntryOrInsert st.header_map ln.level ln.dimension
              level_matches := st.level_matches ++ [ln] }) ∧
      (url = none →
        resolve_one_cut cube cache lm url geoFn st cut_key cut_value =
          Except.error
            "Unable to perform geoservice request: A Geoservice URL has not been provided.")) ∧
    (dim.dim_type ≠ DimensionType.Geo →
      ∀ lc ids, alGet? cache.level_caches ln.level = some lc →
        alGet? lc.neighbors_map elem = some ids →
        resolve_one_cut cube cache lm url geoFn st cut_key cut_value =
          Except.ok
            { dcm := add_cut_entries st.dcm ln ids
              header_map := alEntryOrInsert st.header_map ln.level ln.dimension
              level_matches := st.level_matches ++ [ln] }) := by
  have hbase : ∀ st2 : Except String ResolveState,
      (match dim.dim_type with
        | DimensionType.Geo =>
          match url with
          | some _url =>
            match geoFn elem with
            | Except.error e => Except.error e
            | Except.ok neighbors_ids =>
              Except.ok
                { dcm := add_cut_entries st.dcm ln neighbors_ids
                  header_map := alEntryOrInsert st.header_map ln.level ln.dimension
                  level_matches := st.level_matches ++ [ln] }
          | none =>
            Except.error
              "Unable to perform geoservice request: A Geoservice URL has not been provided."
        | _ =>
          match alGet? cache.level_caches ln.level with
          | none => Except.error ("Could not find cached entries for " ++ ln.level ++ ".")
          | some level_cache =>
            match alGet? level_cache.neighbors_map elem with
            | none =>
              Except.ok
                { dcm := st.dcm
                  header_map := alEntryOrInsert st.header_map ln.level ln.dimension
                  level_matches := st.level_matches ++ [ln] }
            | some neighbors_ids =>
              Except.ok
                { dcm := add_cut_entries st.dcm ln neighbors_ids
                  header_map := alEntryOrInsert st.header_map ln.level ln.dimension
                  level_matches := st.level_matches ++ [ln] } : Except String ResolveState) = st2 →
      resolve_one_cut cube cache lm url geoFn st cut_key cut_value = st2 := by
    intro st2 hst2
    simp only [resolve_one_cut, hv, List.head?, hdc, hlm, List.length_cons,
      List.length_nil, List.get?]
    norm_num
    rw [if_neg (show ("neighbors" : String) ≠ "children" by decide)]
    rw [if_neg (show ("neighbors" : String) ≠ "parents" by decide)]
    rw [hdim]
    exact hst2
  constructor
  · intro hgeo
    constructor
    · intro u ids hu hids
      exact hbase _ (by rw [hgeo, hu, hids])
    · intro hu
      exact hbase _ (by rw [hgeo, hu])
  · intro hngeo lc ids hlc hids
    apply hbase
    cases hdt : dim.dim_type with
    | Geo => exact absurd hdt hngeo
    | Generic => simp only [hlc, hids]
    | Time => simp only [hlc, hids]

/-- Witness for the amended C8: with a URL configured, the geo cut on
g1 takes its ids from the geo-service stand-in; and a non-geo cut on
c1 takes the cached neighbors window. -/
theorem resolve_one_cut_neighbors_cases_witness :
    resolve_one_cut cube0 cache0 cache0.level_map (some "http-geo") geoFn0
        { dcm := [], header_map := [], level_matches := [] } "Gl" "g1:neighbors" =
      Except.ok
        { dcm := add_cut_entries [] lnG ["n1", "n2"]
          header_map := alEntryOrInsert [] lnG.level lnG.dimension
          level_matches := [] ++ [lnG] } :=
  (((resolve_one_cut_neighbors_cases cube0 cache0 cache0.level_map (some "http-geo")
      geoFn0 { dcm := [], header_map := [], level_matches := [] } "Gl" "g1:neighbors"
      "g1" lnG dimG (by decide) (by decide) (by decide) (by decide)).1
    (by decide)).1) "http-geo" ["n1", "n2"] rfl rfl

/-! ## Lemmas: the neighbors map loop (C4, C10) -/

theorem neighborsGo_step (ids : List String) (acc : List (String × List String))
    (prev curr next : Nat) (key : String) (before after : List String)
    (hk : ids.get? curr = some key)
    (hb : (if prev = 0 ∧ curr ≤ 1 then slice? ids 0 curr else slice? ids prev curr) =
      some before)
    (ha : (if ids.length ≤ next then sliceFrom? ids (curr + 1)
      else slice? ids (curr + 1) (next + 1)) = some after) :
    neighborsGo ids acc prev curr next =
      (if curr + 1 = ids.length then some (alInsert acc key (before ++ after))
       else neighborsGo ids (alInsert acc key (before ++ after))
         (if 2 ≤ curr then prev + 1 else prev) (curr + 1) (next + 1)) := by
  rw [neighborsGo]
  split
  · rename_i heq
    rw [heq] at hk
    cases hk
  · rename_i key2 heq
    rw [heq] at hk
    cases hk
    split
    · rename_i heqb
      rw [heqb] at hb
      cases hb
    · rename_i before2 heqb
      rw [heqb] at hb
      cases hb
      split
      · rename_i heqa
        rw [heqa] at ha
        cases ha
      · rename_i after2 heqa
        rw [heqa] at ha
        cases ha
        rfl

theorem neighborsGo_correct (ids : List String) (hnd : ids.Nodup) :
    ∀ (n curr : Nat) (acc : List (String × List String)),
      curr < ids.length → ids.length ≤ curr + n →
      ∃ m, neighborsGo ids acc (curr - 2) curr (curr + 2) = some m ∧
        (∀ j (hj : j < ids.length), curr ≤ j →
          alGet? m (ids.get ⟨j, hj⟩) = some (neighbors_window ids j)) ∧
        (∀ k, (∀ j (hj : j < ids.length), curr ≤ j → k ≠ ids.get ⟨j, hj⟩) →
          alGet? m k = alGet? acc k) ∧
        ((∀ j (hj : j < ids.length), curr ≤ j → alGet? acc (ids.get ⟨j, hj⟩) = none) →
          m.length = acc.length + (ids.length - curr)) := by
  intro n
  induction n with
  | zero => intro curr acc h1 h2; omega
  | succ n ih =>
    intro curr acc h1 h2
    have hget : ids.get? curr = some (ids.get ⟨curr, h1⟩) := List.get?_eq_get h1
    have hbefore :
        (if curr - 2 = 0 ∧ curr ≤ 1 then slice? ids 0 curr else slice? ids (curr - 2) curr) =
          some ((ids.take curr).drop (curr - 2)) := by
      by_cases hc : curr ≤ 1
      · have hz : curr - 2 = 0 := by omega
        rw [if_pos ⟨hz, hc⟩]
        rw [slice?, if_pos ⟨Nat.zero_le _, le_of_lt h1⟩]
        simp [hz]
      · rw [if_neg (by omega)]
        rw [slice?, if_pos ⟨by omega, le_of_lt h1⟩]
        rw [List.drop_take curr (curr - 2) ids]
    have hafter :
        (if ids.length ≤ curr + 2 then sliceFrom? ids (curr + 1)
          else slice? ids (curr + 1) (curr + 2 + 1)) =
          some ((ids.drop (curr + 1)).take 2) := by
      by_cases hc : ids.length ≤ curr + 2
      · rw [if_pos hc, sliceFrom?, if_pos (by omega)]
        have hle : (ids.drop (curr + 1)).length ≤ 2 := by
          rw [List.length_drop]; omega
        rw [List.take_of_length_le hle]
      · have harith : curr + 2 + 1 - (curr + 1) = 2 := by omega
        rw [if_neg hc, slice?, if_pos ⟨by omega, by omega⟩, harith]
    have hprev2 : (if 2 ≤ curr then curr - 2 + 1 else curr - 2) = curr + 1 - 2 := by
      by_cases hc : 2 ≤ curr <;> simp [hc] <;> omega
    have hw : (ids.take curr).drop (curr - 2) ++ (ids.drop (curr + 1)).take 2 =
        neighbors_window ids curr := rfl
    rw [neighborsGo_step ids acc (curr - 2) curr (curr + 2) _ _ _ hget hbefore hafter,
      hprev2, hw]
    by_cases hlast : curr + 1 = ids.length
    · rw [if_pos hlast]
      refine ⟨alInsert acc (ids.get ⟨curr, h1⟩) (neighbors_window ids curr), rfl, ?_, ?_, ?_⟩
      · intro j hj hcj
        have hjc : j = curr := by omega
        subst hjc
        exact alGet?_alInsert_self acc _ _
      · intro k hk
        exact alGet?_alInsert_ne acc _ k _ (hk curr h1 (le_refl curr))
      · intro hfresh
        rw [alInsert_length_of_absent acc _ _ (hfresh curr h1 (le_refl curr))]
        omega
    · rw [if_neg hlast]
      obtain ⟨m, hm, hlook, hpres, hlen⟩ :=
        ih (curr + 1) (alInsert acc (ids.get ⟨curr, h1⟩) (neighbors_window ids curr))
          (by omega) (by omega)
      refine ⟨m, hm, ?_, ?_, ?_⟩
      · intro j hj hcj
        rcases Nat.lt_or_ge curr j with hlt | hge
        · exact hlook j hj hlt
        · have hjc : j = curr := by omega
          subst hjc
          have hkey : ∀ i (hi : i < ids.length), j + 1 ≤ i →
              ids.get ⟨j, hj⟩ ≠ ids.get ⟨i, hi⟩ := by
            intro i hi hii heq
            have := hnd.get_inj_iff.mp heq
            have : j = i := congrArg Fin.val this
            omega
          rw [hpres _ (fun i hi hii => hkey i hi hii)]
          exact alGet?_alInsert_self acc _ _
      · intro k hk
        rw [hpres k (fun j hj hjj => hk j hj (by omega))]
        exact alGet?_alInsert_ne acc _ k _ (hk curr h1 (le_refl curr))
      · intro hfresh
        have hfresh2 : ∀ j (hj : j < ids.length), curr + 1 ≤ j →
            alGet? (alInsert acc (ids.get ⟨curr, h1⟩) (neighbors_window ids curr))
              (ids.get ⟨j, hj⟩) = none := by
          intro j hj hjj
          have hne : ids.get ⟨j, hj⟩ ≠ ids.get ⟨curr, h1⟩ := by
            intro heq
            have := hnd.get_inj_iff.mp heq
            have : j = curr := congrArg Fin.val this
            omega
          rw [alGet?_alInsert_ne acc _ _ _ hne]
          exact hfresh j hj (by omega)
        rw [hlen hfresh2]
        rw [alInsert_length_of_absent acc _ _ (hfresh curr h1 (le_refl curr))]
        omega

/-- C4: for every non-empty distinct-key list, get_neighbors_map maps
each key to the concatenation of its at most two immediately preceding
keys and at most two immediately following keys, truncated at the list
boundaries. -/
theorem get_neighbors_map_window (ids : List String) (hne : ids ≠ [])
    (hnd : ids.Nodup) :
    ∃ m, get_neighbors_map ids = some m ∧
      ∀ i (hi : i < ids.length),
        alGet? m (ids.get ⟨i, hi⟩) =
          some ((ids.take i).drop (i - 2) ++ (ids.drop (i + 1)).take 2) := by
  have hlen : 0 < ids.length := List.length_pos.mpr hne
  obtain ⟨m, hm, hlook, _, _⟩ :=
    neighborsGo_correct ids hnd ids.length 0 [] hlen (by omega)
  exact ⟨m, hm, fun i hi => hlook i hi (Nat.zero_le i)⟩

/-- Witness for C4 on the sorted keys a, b, c, d, e: the cached
neighbors of c are a, b, d, e; of a are b, c; of e are c, d. -/
theorem get_neighbors_map_window_witness :
    ∃ m, get_neighbors_map ["a", "b", "c", "d", "e"] = some m ∧
      alGet? m "c" = some ["a", "b", "d", "e"] ∧
      alGet? m "a" = some ["b", "c"] ∧
      alGet? m "e" = some ["c", "d"] := by
  obtain ⟨m, hm, hlook⟩ :=
    get_neighbors_map_window ["a", "b", "c", "d", "e"] (by decide) (by decide)
  exact ⟨m, hm, hlook 2 (by decide), hlook 0 (by decide), hlook 4 (by decide)⟩

/-- C10: get_neighbors_map is total only on non-empty input: on every
non-empty distinct-id list it returns a map with one entry per id, but
on the empty list the loop body runs before any emptiness check and the
slice from index one panics (modelled as none) instead of returning an
empty map. -/
theorem get_neighbors_map_totality :
    get_neighbors_map ([] : List String) = none ∧
    ∀ (ids : List String), ids ≠ [] → ids.Nodup →
      ∃ m, get_neighbors_map ids = some m ∧ m.length = ids.length := by
  constructor
  · rw [get_neighbors_map, neighborsGo]
    rfl
  · intro ids hne hnd
    have hlen : 0 < ids.length := List.length_pos.mpr hne
    obtain ⟨m, hm, _, _, hcount⟩ :=
      neighborsGo_correct ids hnd ids.length 0 [] hlen (by omega)
    exact ⟨m, hm, by simpa using hcount (fun j hj _ => rfl)⟩

/-- Witness for C10 on a two-element list: the map exists and has two
entries. -/
theorem get_neighbors_map_totality_witness :
    ∃ m, get_neighbors_map ["x", "y"] = some m ∧ m.length = 2 :=
  get_neighbors_map_totality.2 ["x", "y"] (by decide) (by decide)

/-! ## Lemmas: time cut resolution (C5) -/

theorem get_time_cut_eq (c : CubeCache) (t : Time) :
    c.get_time_cut t =
      (match c.get_value t (cache_time_values c t.precision) with
      | none => Except.error "Unable to get requested time precision data."
      | some val =>
        match c.get_level_name (cache_time_level c t.precision) with
        | none => Except.error "Unable to get requested time precision level name."
        | some ln => Except.ok (ln, val)) := by
  obtain ⟨p, v⟩ := t
  cases p <;> rfl

theorem foldl_push {α : Type} (l : List α) :
    ∀ acc : List α, l.foldl (fun acc v => acc ++ [v]) acc = acc ++ l := by
  induction l with
  | nil => intro acc; simp
  | cons a rest ih => intro acc; simp [ih]

theorem intercalate_singleton (s : String) : String.intercalate "," [s] = s := by
  simp [String.intercalate, String.intercalate.go]

/-- The named-set substitution pass of clean_cuts_map is the identity on
a singleton map whose value splits into itself, when no logic-layer
config is present. -/
theorem clean_subst_none_singleton (k v : String)
    (hsplit : splitChar ',' v = [v]) :
    ([(k, v)] : List (String × String)).foldl
      (fun m entry =>
        if entry.2 = "" then m
        else
          let pieces := splitChar ',' entry.2
          let final_cuts := pieces.foldl
            (fun acc v =>
              match (none : Option LogicLayerConfig) with
              | some conf =>
                let nv := conf.substitute_cut entry.1 v
                if nv ≠ v then acc ++ splitChar ',' nv else acc ++ [nv]
              | none => acc ++ [v])
            []
          alModify m entry.1 (fun _ => String.intercalate "," final_cuts))
      [(k, v)] = [(k, v)] := by
  by_cases hv : v = ""
  · simp [hv]
  · simp only [List.foldl_cons, List.foldl_nil]
    rw [if_neg hv]
    simp [hsplit, foldl_push, intercalate_singleton, alModify]

/-- C5: a time token with precision and value is resolved against the
cube cache: latest yields the last element of the sorted value list for
that precision, oldest yields the first, and a canonical integer passes
through unchanged; the resulting level-name and value pair is injected
into the cut map by clean_cuts_map; and when the cube has no level for
the requested precision, resolution returns an error and the request
fails. -/
theorem clean_cuts_map_time (cache : CubeCache) (ts tc prec_str val_str : String)
    (p : TimePrecision)
    (h1 : splitChar ',' ts = [tc])
    (h2 : splitChar '.' tc = [prec_str, val_str])
    (hp : TimePrecision.from_str prec_str = Except.ok p) :
    (∀ lvl vs, cache_time_level cache p = some lvl →
      cache_time_values cache p = some vs →
      (val_str = "latest" → vs ≠ [] → splitChar ',' vs.getLast! = [vs.getLast!] →
        clean_cuts_map none (some ts) cache none = Except.ok [(lvl.name, vs.getLast!)]) ∧
      (val_str = "oldest" → vs ≠ [] → splitChar ',' vs.head! = [vs.head!] →
        clean_cuts_map none (some ts) cache none = Except.ok [(lvl.name, vs.head!)]) ∧
      (∀ n : Nat, parseU32 val_str = some n → toString n = val_str →
        val_str ≠ "latest" → val_str ≠ "oldest" →
        splitChar ',' val_str = [val_str] →
        clean_cuts_map none (some ts) cache none = Except.ok [(lvl.name, val_str)])) ∧
    (cache_time_level cache p = none →
      exceptIsOk (clean_cuts_map none (some ts) cache none) = false) := by
  have hrun : ∀ (t : Time) (key value : String),
      Time.from_key_value prec_str val_str = Except.ok t →
      cache.get_time_cut t = Except.ok (key, value) →
      splitChar ',' value = [value] →
      clean_cuts_map none (some ts) cache none = Except.ok [(key, value)] := by
    intro t key value hkv hcut hsplit
    have hstep := clean_subst_none_singleton key value hsplit
    simp only [clean_cuts_map, Option.getD, h1, List.foldlM, h2, hkv, hcut, bind, pure,
      Except.bind, Except.pure, alInsert]
    exact congrArg Except.ok hstep
  have hrunE1 : ∀ e, Time.from_key_value prec_str val_str = Except.error e →
      exceptIsOk (clean_cuts_map none (some ts) cache none) = false := by
    intro e hkv
    simp [clean_cuts_map, Option.getD, h1, List.foldlM, h2, hkv, bind, Except.bind,
      exceptIsOk]
  have hrunE2 : ∀ t e, Time.from_key_value prec_str val_str = Except.ok t →
      cache.get_time_cut t = Except.error e →
      exceptIsOk (clean_cuts_map none (some ts) cache none) = false := by
    intro t e hkv hcut
    simp [clean_cuts_map, Option.getD, h1, List.foldlM, h2, hkv, hcut, bind, Except.bind,
      exceptIsOk]
  constructor
  · intro lvl vs hl hv
    refine ⟨?_, ?_, ?_⟩
    · intro hlatest hne hsplit
      apply hrun ⟨p, TimeValue.Last⟩
      · rw [Time.from_key_value]
        simp [hp, hlatest, TimeValue.from_str, bind, Except.bind]
      · rw [get_time_cut_eq]
        have hlen : 1 ≤ vs.length := by
          cases vs with
          | nil => exact absurd rfl hne
          | cons a l => simp
        simp [CubeCache.get_value, CubeCache.get_level_name, hl, hv, hlen]
      · exact hsplit
    · intro holdest hne hsplit
      apply hrun ⟨p, TimeValue.First⟩
      · rw [Time.from_key_value]
        simp [hp, holdest, TimeValue.from_str, bind, Except.bind]
      · rw [get_time_cut_eq]
        have hlen : 1 ≤ vs.length := by
          cases vs with
          | nil => exact absurd rfl hne
          | cons a l => simp
        simp [CubeCache.get_value, CubeCache.get_level_name, hl, hv, hlen]
      · exact hsplit
    · intro n hn hcanon hnl hno hsplit
      have hval : clean_cuts_map none (some ts) cache none =
          Except.ok [(lvl.name, toString n)] := by
        apply hrun ⟨p, TimeValue.Value n⟩
        · rw [Time.from_key_value]
          simp [hp, TimeValue.from_str, bind, Except.bind, hnl, hno, hn]
        · rw [get_time_cut_eq]
          simp [CubeCache.get_value, CubeCache.get_level_name, hl, hv]
        · rw [hcanon]
          exact hsplit
      rw [hval, hcanon]
  · intro hlnone
    cases hkv : Time.from_key_value prec_str val_str with
    | error e => exact hrunE1 e hkv
    | ok t =>
      have hpt : t.precision = p := by
        revert hkv
        rw [Time.from_key_value]
        simp only [hp, bind, Except.bind]
        cases TimeValue.from_str val_str with
        | error e => intro hc; cases hc
        | ok v => intro hc; cases hc; rfl
      cases hcut : cache.get_time_cut t with
      | error e => exact hrunE2 t e hkv hcut
      | ok cut =>
        exfalso
        revert hcut
        rw [get_time_cut_eq, hpt]
        cases cache.get_value t (cache_time_values cache p) with
        | none => intro hc; cases hc
        | some val =>
          rw [hlnone]
          intro hc
          cases hc

/-- Witness for C5 on the fixture cache with Year values 2018, 2019,
2020: latest resolves to 2020, oldest to 2018, the integer 2019 passes
through, and a precision with no cached level (month) fails. -/
theorem clean_cuts_map_time_witness :
    clean_cuts_map none (some "year.latest") cache0 none = Except.ok [("Year", "2020")] ∧
    clean_cuts_map none (some "year.oldest") cache0 none = Except.ok [("Year", "2018")] ∧
    clean_cuts_map none (some "year.2019") cache0 none = Except.ok [("Year", "2019")] ∧
    exceptIsOk (clean_cuts_map none (some "month.latest") cache0 none) = false := by
  refine ⟨?_, ?_, ?_, ?_⟩
  · exact (((clean_cuts_map_time cache0 "year.latest" "year.latest" "year" "latest"
      TimePrecision.Year (by decide) (by decide) (by decide)).1
      { name := "Year", key_column := "year", name_column := none, properties := none }
      ["2018", "2019", "2020"] (by decide) (by decide)).1) rfl (by decide) (by decide)
  · exact (((clean_cuts_map_time cache0 "year.oldest" "year.oldest" "year" "oldest"
      TimePrecision.Year (by decide) (by decide) (by decide)).1
      { name := "Year", key_column := "year", name_column := none, properties := none }
      ["2018", "2019", "2020"] (by decide) (by decide)).2.1) rfl (by decide) (by decide)
  · exact (((clean_cuts_map_time cache0 "year.2019" "year.2019" "year" "2019"
      TimePrecision.Year (by decide) (by decide) (by decide)).1
      { name := "Year", key_column := "year", name_column := none, properties := none }
      ["2018", "2019", "2020"] (by decide) (by decide)).2.2) 2019 (by decide) (by decide)
      (by decide) (by decide) (by decide)
  · exact (clean_cuts_map_time cache0 "month.latest" "month.latest" "month" "latest"
      TimePrecision.Month (by decide) (by decide) (by decide)).2 (by decide)

/-! ## Lemmas: property without matching drilldown (C6) -/

theorem mapME_error_of_mem {α β : Type} (f : α → Except String β) (l : List α)
    (x : α) (hx : x ∈ l) (e : String) (hfx : f x = Except.error e) :
    ∃ msg, mapME f l = Except.error msg := by
  induction l with
  | nil => cases hx
  | cons a rest ih =>
    cases hfa : f a with
    | error m => exact ⟨m, by simp [mapME, hfa, bind, Except.bind]⟩
    | ok b =>
      rcases List.mem_cons.mp hx with rfl | hx2
      · rw [hfa] at hfx; cases hfx
      · obtain ⟨msg, hmsg⟩ := ih hx2
        exact ⟨msg, by simp [mapME, hfa, hmsg, bind, Except.bind]⟩

/-- Counterexample to C6: a query carrying a property on level C while
drilling only on level B does not succeed with the property ignored;
sql_query rejects it with an explicit error. -/
theorem sql_query_property_without_drill_counterexample :
    schema0.sql_query "Sales"
        { drilldowns := [{ level_name := lnB }], cuts := []
          measures := [{ name := "Revenue" }], parents := false
          properties := [{ level_name := lnC, property := "PropC" }], captions := [] }
        Database.Clickhouse (fun _ _ _ _ => "") =
      Except.error "Property PropC has no matching drilldown" := by
  decide

/-- C6 amended: a query containing a property whose owning level has no
matching drilldown FAILS: sql_query returns an error (the fail-fast
check precedes binding), rather than silently dropping the property. -/
theorem sql_query_property_without_drill (s : Schema) (cube : String) (q : TsQuery)
    (db : Database)
    (sqlGen : TableSql → List CutSql → List DrilldownSql → List MeasureSql → String)
    (prop : Property)
    (hprop : prop ∈ q.properties)
    (hnodrill : ∀ d ∈ q.drilldowns, d.level_name ≠ prop.level_name)
    (hmeas : q.measures ≠ [])
    (hdc : ¬(q.drilldowns.isEmpty ∧ q.cuts.isEmpty)) :
    exceptIsOk (s.sql_query cube q db sqlGen) = false := by
  have hany : q.drilldowns.any (fun d => d.level_name = prop.level_name) = false := by
    apply List.any_eq_false.mpr
    intro d hd
    simpa using hnodrill d hd
  have hchk : (if q.drilldowns.any (fun d => d.level_name = prop.level_name) then
        Except.ok ()
      else
        Except.error ("Property " ++ prop.property ++ " has no matching drilldown")) =
      (Except.error ("Property " ++ prop.property ++ " has no matching drilldown") :
        Except String Unit) := by
    simp [hany]
  obtain ⟨msg, hmsg⟩ := mapME_error_of_mem
    (fun property =>
      if q.drilldowns.any (fun d => d.level_name = property.level_name) then
        Except.ok ()
      else
        Except.error ("Property " ++ property.property ++ " has no matching drilldown"))
    q.properties prop hprop _ hchk
  have hm : q.measures.isEmpty = false := by
    cases hq : q.measures with
    | nil => exact absurd hq hmeas
    | cons a l => rfl
  simp only [Schema.sql_query, hm, Bool.false_eq_true, if_false, if_neg hdc, hmsg,
    bind, Except.bind, exceptIsOk]

/-- Witness for the amended C6: a property on level A with a drill only
on level B makes the fixture query fail. -/
theorem sql_query_property_without_drill_witness :
    exceptIsOk (schema0.sql_query "Sales"
        { drilldowns := [{ level_name := lnB }], cuts := []
          measures := [{ name := "Revenue" }], parents := false
          properties := [{ level_name := lnA, property := "PropA" }], captions := [] }
        Database.Clickhouse (fun _ _ _ _ => "")) = false :=
  sql_query_property_without_drill schema0 "Sales" _ Database.Clickhouse _
    { level_name := lnA, property := "PropA" } (by decide) (by decide) (by decide)
    (by decide)

/-! ## Lemmas: header derivation (C7) -/

theorem mapME_ok_iff {α β : Type} (f : α → Except String β) (g : α → Option β)
    (hfg : ∀ a b, f a = Except.ok b ↔ g a = some b) :
    ∀ (l : List α) (v : List β), mapME f l = Except.ok v ↔ mapMO g l = some v := by
  intro l
  induction l with
  | nil => intro v; simp [mapME, mapMO]
  | cons a rest ih =>
    intro v
    cases hfa : f a with
    | error e =>
      have hga : g a = none := by
        cases hg : g a with
        | none => rfl
        | some b =>
          have := (hfg a b).mpr hg
          rw [hfa] at this
          cases this
      simp [mapME, mapMO, hfa, hga, bind, Except.bind]
    | ok b =>
      have hga : g a = some b := (hfg a b).mp hfa
      cases hrest : mapME f rest with
      | error e =>
        have hgrest : mapMO g rest = none := by
          cases hg : mapMO g rest with
          | none => rfl
          | some bs =>
            have := (ih bs).mpr hg
            rw [hrest] at this
            cases this
        simp [mapME, mapMO, hfa, hga, hrest, hgrest, bind, Except.bind]
      | ok bs =>
        have hgrest : mapMO g rest = some bs := (ih bs).mp hrest
        simp [mapME, mapMO, hfa, hga, hrest, hgrest, bind, Except.bind]

theorem drill_property_columns_names_iff (levels : List Level) (drill : Drilldown)
    (properties : List Property) (v : List String) :
    drill_property_columns levels drill properties (fun p => p.name) = Except.ok v ↔
      mapMO
        (fun p => do
          let lvl ← levels.find? (fun l => l.name = p.level_name.level)
          let props ← lvl.properties
          let sp ← props.find? (fun q => q.name = p.property)
          pure sp.name)
        (properties.filter (fun p => p.level_name = drill.level_name)) = some v := by
  apply mapME_ok_iff
  intro p b
  cases hfind : levels.find? (fun l => l.name = p.level_name.level) with
  | none => simp [hfind, bind, Option.bind]
  | some lvl =>
    cases hprops : lvl.properties with
    | none => simp [hfind, hprops, bind, Option.bind]
    | some props =>
      cases hsp : props.find? (fun q => q.name = p.property) with
      | none => simp [hfind, hprops, hsp, bind, Option.bind]
      | some sp => simp [hfind, hprops, hsp, bind, Option.bind]

theorem drill_headers_one_iff (cube : Cube) (properties : List Property)
    (parents : Bool) (drill : Drilldown) (v : List String) :
    drill_headers_one cube properties parents drill = Except.ok v ↔
      drill_headers_spec cube parents properties drill = some v := by
  rw [drill_headers_one, drill_headers_spec]
  cases hdim : cube.dimensions.find? (fun d => d.name = drill.level_name.dimension) with
  | none => simp [hdim, bind, Except.bind, Option.bind, pure, Except.pure]
  | some dim =>
    cases hhier : dim.hierarchies.find? (fun h => h.name = drill.level_name.hierarchy) with
    | none => simp [hdim, hhier, bind, Except.bind, Option.bind, pure, Except.pure]
    | some hier =>
      cases hidx : hier.levels.findIdx? (fun l => l.name = drill.level_name.level) with
      | none => simp [hdim, hhier, hidx, bind, Except.bind, Option.bind, pure, Except.pure]
      | some idx =>
        have hlt : idx < hier.levels.length :=
          (List.findIdx?_eq_some_iff_findIdx_eq.mp hidx).1
        have hget : hier.levels.get? idx = some hier.levels[idx] := by
          rw [List.get?_eq_getElem?]
          exact List.getElem?_eq_getElem hlt
        have hdrop : (hier.levels.drop idx).take 1 = [hier.levels[idx]] := by
          rw [List.drop_eq_getElem_cons hlt, List.take_succ_cons, List.take_zero]
        simp only [hdim, hhier, hidx, bind, Except.bind, Option.bind, pure, Except.pure,
          hget, hdrop]
        cases hpc : drill_property_columns hier.levels drill properties
            (fun p => p.name) with
        | error e =>
          simp only [hpc]
          constructor
          · intro hc; cases hc
          · intro hc
            cases hg : mapMO
                (fun p => do
                  let lvl ← hier.levels.find? (fun l => l.name = p.level_name.level)
                  let props ← lvl.properties
                  let sp ← props.find? (fun q => q.name = p.property)
                  pure sp.name)
                (properties.filter (fun p => p.level_name = drill.level_name)) with
            | none =>
              simp only [bind, Option.bind, pure, Except.pure] at hg
              rw [hg] at hc
              cases hc
            | some bs =>
              have hcontra := (drill_property_columns_names_iff hier.levels drill
                properties bs).mpr hg
              rw [hpc] at hcontra
              cases hcontra
        | ok pc =>
          have hmo := (drill_property_columns_names_iff hier.levels drill properties
            pc).mp hpc
          simp only [bind, Option.bind, pure, Except.pure] at hmo
          simp only [hmo, hpc]
          have hlhn : (fun (lvl : Level) =>
              (if lvl.name_column.isSome then [lvl.name ++ " ID"] else []) ++ [lvl.name]) =
              level_header_names := rfl
          cases parents
          · simp [level_header_names]
          · simp [hlhn]

theorem cube_mea_headers_names (s : Schema) (cube_name : String) :
    ∀ (meas : List Measure) (v : List String),
      s.cube_mea_headers cube_name meas = Except.ok v → v = meas.map Measure.name := by
  intro meas
  cases hcube : s.cubes.find? (fun cube => cube.name = cube_name) with
  | none =>
    intro v hv
    simp [Schema.cube_mea_headers, hcube] at hv
  | some cube =>
    have hstep : ∀ (ms : List Measure) (v : List String),
        mapME (fun measure =>
          match cube.measures.find? (fun m => m.name = measure.name) with
          | none => Except.error "could not find measure in cube"
          | some mea => Except.ok mea.name) ms = Except.ok v → v = ms.map Measure.name := by
      intro ms
      induction ms with
      | nil =>
        intro v hv
        simp only [mapME, Except.ok.injEq] at hv
        simp [hv.symm]
      | cons a rest ih =>
        intro v hv
        cases hfind : cube.measures.find? (fun m => m.name = a.name) with
        | none => simp [mapME, hfind, bind, Except.bind] at hv
        | some mea =>
          have hname : mea.name = a.name := by
            have := List.find?_some hfind
            simpa using this
          cases hrest : mapME (fun measure =>
              match cube.measures.find? (fun m => m.name = measure.name) with
              | none => Except.error "could not find measure in cube"
              | some mea => Except.ok mea.name) rest with
          | error e => simp [mapME, hfind, hrest, bind, Except.bind] at hv
          | ok bs =>
            simp only [mapME, hfind, hrest, bind, Except.bind] at hv
            cases hv
            simp [hname, ih bs hrest]
    intro v hv
    simp only [Schema.cube_mea_headers, hcube] at hv
    exact hstep meas v hv

theorem sql_query_ok_decomp (s : Schema) (cube_name : String) (q : TsQuery)
    (db : Database)
    (sqlGen : TableSql → List CutSql → List DrilldownSql → List MeasureSql → String)
    (sql : String) (hs : List String)
    (hok : s.sql_query cube_name q db sqlGen = Except.ok (sql, hs)) :
    ∃ dh mh, s.cube_drill_headers cube_name q.drilldowns q.properties q.parents =
        Except.ok dh ∧
      s.cube_mea_headers cube_name q.measures = Except.ok mh ∧
      hs = dh ++ mh := by
  simp only [Schema.sql_query, bind, Except.bind] at hok
  repeat' split at hok
  all_goals try exact (Except.noConfusion hok)
  all_goals
    simp only [pure, Except.pure, Except.ok.injEq, Prod.mk.injEq] at hok
    obtain ⟨hsql, hhs⟩ := hok
    exact ⟨_, _, by assumption, by assumption, hhs.symm⟩

/-- C7: for every bound query that sql_query accepts, the header list
returned alongside the SQL is, drill by drill, the level name preceded
by its ID variant exactly when the level has a display-name column (for
every level from the top of the hierarchy down to the requested one
under parents, and just the requested level otherwise), followed by
that drill's property names in declared order; and after all drills the
measure names in request order. -/
theorem sql_query_headers (s : Schema) (cube_name : String) (q : TsQuery)
    (db : Database)
    (sqlGen : TableSql → List CutSql → List DrilldownSql → List MeasureSql → String)
    (cube : Cube) (sql : String) (hs : List String)
    (hcube : s.cubes.find? (fun c => c.name = cube_name) = some cube)
    (hok : s.sql_query cube_name q db sqlGen = Except.ok (sql, hs)) :
    ∃ groups,
      mapMO (drill_headers_spec cube q.parents q.properties) q.drilldowns =
        some groups ∧
      hs = groups.flatten ++ q.measures.map Measure.name := by
  obtain ⟨dh, mh, hdh, hmh, hhs⟩ :=
    sql_query_ok_decomp s cube_name q db sqlGen sql hs hok
  have hmea := cube_mea_headers_names s cube_name q.measures mh hmh
  simp only [Schema.cube_drill_headers, hcube, bind, Except.bind] at hdh
  cases hgroups : mapME (drill_headers_one cube q.properties q.parents) q.drilldowns with
  | error e => rw [hgroups] at hdh; cases hdh
  | ok groups =>
    rw [hgroups] at hdh
    have hflat : dh = groups.flatten := by
      simpa [pure, Except.pure] using hdh.symm
    have hspec := (mapME_ok_iff (drill_headers_one cube q.properties q.parents)
      (drill_headers_spec cube q.parents q.properties)
      (fun a b => drill_headers_one_iff cube q.properties q.parents a b)
      q.drilldowns groups).mp hgroups
    exact ⟨groups, hspec, by rw [hhs, hflat, hmea]⟩

/-- Witness for C7 at the fixture: a drill on level C with parents and
the PropC property yields the headers A, B ID, B, C, PropC, Revenue. -/
theorem sql_query_headers_witness :
    ∃ groups,
      mapMO (drill_headers_spec cube0 true
          [{ level_name := lnC, property := "PropC" }])
        [{ level_name := lnC }] = some groups ∧
      ["A", "B ID", "B", "C", "PropC", "Revenue"] =
        groups.flatten ++
          ([{ name := "Revenue" }] : List Measure).map Measure.name :=
  sql_query_headers schema0 "Sales"
    { drilldowns := [{ level_name := lnC }], cuts := []
      measures := [{ name := "Revenue" }], parents := true
      properties := [{ level_name := lnC, property := "PropC" }], captions := [] }
    Database.Clickhouse (fun _ _ _ _ => "") cube0 ""
    ["A", "B ID", "B", "C", "PropC", "Revenue"] (by decide) (by decide)

/-! ## Lemmas: the fact-table cut clause (C9) -/

theorem foldl_star_join_wrap (smea : String) :
    ∀ (dsqs : List Clickhouse.DimSubquery) (acc0 : String) (cols : List String),
      ∃ p q, (dsqs.foldl
        (fun (acc : String × List String) dsq =>
          let current :=
            match dsq.dim_cols with
            | some c => acc.2 ++ [c]
            | none => acc.2
          let sub_queries_dim_cols :=
            if ¬ current.isEmpty then String.intercalate ", " current ++ ", " else ""
          ("select " ++ sub_queries_dim_cols ++ smea ++ " from (" ++ dsq.sql ++
             ") all inner join (" ++ acc.1 ++ ") using " ++ dsq.foreign_key,
           current))
        (acc0, cols)).1 = p ++ acc0 ++ q := by
  intro dsqs
  induction dsqs with
  | nil => intro acc0 cols; exact ⟨"", "", by simp⟩
  | cons d rest ih =>
    intro acc0 cols
    simp only [List.foldl_cons]
    obtain ⟨p, q, hfold⟩ := ih _ _
    refine ⟨p ++ ("select " ++
      (if ¬ (match d.dim_cols with
             | some c => cols ++ [c]
             | none => cols).isEmpty then
        String.intercalate ", " (match d.dim_cols with
          | some c => cols ++ [c]
          | none => cols) ++ ", "
       else "") ++ smea ++ " from (" ++ d.sql ++ ") all inner join ("),
      (") using " ++ d.foreign_key) ++ q, ?_⟩
    rw [hfold]
    simp [String.append_assoc]

theorem fact_sql_of_where (h : Clickhouse.SqlHelpers) (table : TableSql)
    (cuts : List Clickhouse.CutSql) (drills : List Clickhouse.DrilldownSql)
    (meas : List MeasureSql) (hd : Option (List Clickhouse.HiddenDrilldownSql))
    (hcond : 0 < (cuts.filter
        (fun c => c.table.name == table.name && ! c.inline_table.isSome)).length ∨
      0 < (cuts.filter
        (fun c => c.table.name != table.name || c.inline_table.isSome)).length) :
    ∃ A B, Clickhouse.fact_sql_of h table cuts drills meas hd =
      A ++ " where " ++
        String.intercalate "and "
          ((cuts.filter
              (fun c => c.table.name == table.name && ! c.inline_table.isSome)).map
                h.cut_sql_string ++
           (cuts.filter
              (fun c => c.table.name != table.name || c.inline_table.isSome)).map
                (Clickhouse.ext_cut_subselect h)) ++ B := by
  by_cases hh : (hd.getD []).isEmpty
  · refine ⟨"select " ++ String.intercalate ", "
      ((drills.filter
          (fun d => if d.inline_table.isSome then false else d.table.name == table.name)).map
            h.col_alias_string ++
        (Clickhouse.dim_subqueries_of h table drills).map (fun d => d.foreign_key)) ++ ", " ++
      String.intercalate ", "
        (meas.enum.map (fun im => h.agg_pass_1 im.2.column im.2.aggregator im.1)) ++
      " from " ++ table.name,
      " group by " ++ Clickhouse.all_fact_dim_aliass_of h table drills, ?_⟩
    simp only [Clickhouse.fact_sql_of]
    rw [if_pos hcond]
    simp [hh, String.append_assoc]
  · refine ⟨"select " ++ String.intercalate ", "
      ((drills.filter
          (fun d => if d.inline_table.isSome then false else d.table.name == table.name)).map
            h.col_alias_string ++
        (Clickhouse.dim_subqueries_of h table drills).map (fun d => d.foreign_key)) ++ ", " ++
      String.intercalate ", "
        ((hd.getD []).map (fun d => h.col_alias_string d.drilldown_sql)) ++ ", " ++
      String.intercalate ", "
        (meas.enum.map (fun im => h.agg_pass_1 im.2.column im.2.aggregator im.1)) ++
      " from " ++ table.name,
      " group by " ++ Clickhouse.all_fact_dim_aliass_of h table drills ++ ", " ++
        String.intercalate ", "
          ((hd.getD []).map (fun d => h.col_alias_string d.drilldown_sql)), ?_⟩
    simp only [Clickhouse.fact_sql_of]
    rw [if_pos hcond]
    simp [hh, String.append_assoc]

theorem primary_agg_fact_wrap (h : Clickhouse.SqlHelpers) (table : TableSql)
    (cuts : List Clickhouse.CutSql) (drills : List Clickhouse.DrilldownSql)
    (meas : List MeasureSql) (hd : Option (List Clickhouse.HiddenDrilldownSql)) :
    ∃ p q, (Clickhouse.primary_agg h table cuts drills meas hd).1 =
      p ++ Clickhouse.fact_sql_of h table cuts drills meas hd ++ q := by
  obtain ⟨p, q, hfold⟩ := foldl_star_join_wrap
    (String.intercalate ", "
      (meas.enum.map (fun im => h.agg_select_mea im.2.aggregator im.1)))
    (Clickhouse.dim_subqueries_of h table drills)
    (Clickhouse.fact_sql_of h table cuts drills meas hd)
    [Clickhouse.all_fact_dim_aliass_of h table drills]
  refine ⟨"select " ++ String.intercalate ", " (drills.map h.col_alias_only_string) ++
    ", " ++ String.intercalate ", "
      (meas.enum.map (fun im => h.agg_pass_2 im.2.aggregator im.1)) ++
    " from (" ++ p,
    q ++ ") group by " ++
      String.intercalate ", " (drills.map h.col_alias_only_string), ?_⟩
  simp only [Clickhouse.primary_agg]
  rw [hfold]
  simp [String.append_assoc]

/-- C9: when every cut passed to the clickhouse generator is external
(dimension table different from the fact table, no inline table), the
fact-table pass emits a WHERE clause in which each cut with an empty
member list contributes the unfiltered subselect fk in (select pk from
cut_table) and each cut with members contributes the same subselect
extended with a WHERE member filter, all joined with the separator
and. -/
theorem primary_agg_external_cut_clause (h : Clickhouse.SqlHelpers) (table : TableSql)
    (cuts : List Clickhouse.CutSql) (drills : List Clickhouse.DrilldownSql)
    (meas : List MeasureSql) (hidden : Option (List Clickhouse.HiddenDrilldownSql))
    (hext : ∀ c ∈ cuts, c.table.name ≠ table.name ∧ c.inline_table = none)
    (hne : cuts ≠ []) :
    ∃ pre post,
      (Clickhouse.primary_agg h table cuts drills meas hidden).1 =
        pre ++ " where " ++
          String.intercalate "and " (cuts.map (fun c =>
            if c.members = [] then
              c.foreign_key ++ " in (select " ++ c.primary_key ++ " from " ++
                c.table.full_name ++ ")"
            else
              c.foreign_key ++ " in (select " ++ c.primary_key ++ " from " ++
                c.table.full_name ++ " where " ++ h.cut_sql_string c ++ ")")) ++
          post := by
  have hinline : cuts.filter
      (fun c => c.table.name == table.name && ! c.inline_table.isSome) = [] := by
    apply List.filter_eq_nil_iff.mpr
    intro c hc
    obtain ⟨hname, hit⟩ := hext c hc
    simp [hname, hit]
  have hextf : cuts.filter
      (fun c => c.table.name != table.name || c.inline_table.isSome) = cuts := by
    apply List.filter_eq_self.mpr
    intro c hc
    obtain ⟨hname, hit⟩ := hext c hc
    simp [hname, hit]
  have hmap : cuts.map (Clickhouse.ext_cut_subselect h) =
      cuts.map (fun c =>
        if c.members = [] then
          c.foreign_key ++ " in (select " ++ c.primary_key ++ " from " ++
            c.table.full_name ++ ")"
        else
          c.foreign_key ++ " in (select " ++ c.primary_key ++ " from " ++
            c.table.full_name ++ " where " ++ h.cut_sql_string c ++ ")") := by
    apply List.map_congr_left
    intro c hc
    obtain ⟨_, hit⟩ := hext c hc
    by_cases hm : c.members = []
    · simp [Clickhouse.ext_cut_subselect, hit, hm]
    · have hne' : c.members.isEmpty = false := by
        cases hmem : c.members with
        | nil => exact absurd hmem hm
        | cons a l => rfl
      simp [Clickhouse.ext_cut_subselect, hit, hne', hm]
  have hcond : (0 < (cuts.filter
        (fun c => c.table.name == table.name && ! c.inline_table.isSome)).length ∨
      0 < (cuts.filter
        (fun c => c.table.name != table.name || c.inline_table.isSome)).length) := by
    right
    rw [hextf]
    exact List.length_pos.mpr hne
  obtain ⟨A, B, hfact⟩ := fact_sql_of_where h table cuts drills meas hidden hcond
  rw [hinline, hextf, List.map_nil, List.nil_append, hmap] at hfact
  obtain ⟨p, q, hwrap⟩ := primary_agg_fact_wrap h table cuts drills meas hidden
  rw [hfact] at hwrap
  exact ⟨p ++ A, B ++ q, by rw [hwrap]; simp [String.append_assoc]⟩

/-- Witness for the cut-clause theorem: the fixture fact table with the
two external fixture cuts, one memberless and one with members. -/
theorem primary_agg_external_cut_clause_witness :
    ∃ pre post,
      (Clickhouse.primary_agg helpers0 tableCh [cutEmpty, cutMembers] [] [] none).1 =
        pre ++ " where " ++
          String.intercalate "and " ([cutEmpty, cutMembers].map (fun c =>
            if c.members = [] then
              c.foreign_key ++ " in (select " ++ c.primary_key ++ " from " ++
                c.table.full_name ++ ")"
            else
              c.foreign_key ++ " in (select " ++ c.primary_key ++ " from " ++
                c.table.full_name ++ " where " ++ helpers0.cut_sql_string c ++ ")")) ++
          post :=
  primary_agg_external_cut_clause helpers0 tableCh [cutEmpty, cutMembers] [] [] none
    (by decide) (by decide)

end Tesseract
